import Mathlib

/- Shallow embedding of src/addressbook.py (the record / validation /
address-book store subsystem).  Python values are modelled as follows:
str as String, int as Nat or Int, datetime dates as the Date structure
below, raised exceptions as Except PyError, and the dynamically typed
birthday slot of a Record as the BirthdayField sum.  All definitions are
executable. -/

set_option autoImplicit false

/-- Kinds of Python exception the embedded code can raise.  Exception
message strings are not modelled. -/
inductive PyError
  | valueError
  | attributeError
  | jsonDecodeError
  deriving DecidableEq, Repr

/-- A Python datetime date (proleptic Gregorian calendar).  The code only
ever uses the year, month and day components (the time-of-day part of a
datetime never influences any computation modelled here). -/
structure Date where
  year : Nat
  month : Nat
  day : Nat
  deriving DecidableEq, Repr

/-- Gregorian leap-year test, as in Python's calendar handling. -/
def isLeap (y : Nat) : Bool := y % 4 == 0 && (y % 100 != 0 || y % 400 == 0)

/-- Number of days in a month (0 for a month index outside 1..12). -/
def daysInMonth (leap : Bool) (m : Nat) : Nat :=
  match m with
  | 1 => 31
  | 2 => if leap then 29 else 28
  | 3 => 31
  | 4 => 30
  | 5 => 31
  | 6 => 30
  | 7 => 31
  | 8 => 31
  | 9 => 30
  | 10 => 31
  | 11 => 30
  | 12 => 31
  | _ => 0

/-- Days in the given year strictly before the first day of month m. -/
def daysBeforeMonth (leap : Bool) : Nat → Nat
  | 0 => 0
  | m + 1 => daysBeforeMonth leap m + daysInMonth leap m

/-- Days before January 1 of the given year, counted from 0001-01-01
(CPython's _days_before_year). -/
def daysBeforeYear (year : Nat) : Nat :=
  365 * (year - 1) + (year - 1) / 4 - (year - 1) / 100 + (year - 1) / 400

/-- date.toordinal(): 0001-01-01 is day 1. -/
def Date.toordinal (d : Date) : Nat :=
  daysBeforeYear d.year + daysBeforeMonth (isLeap d.year) d.month + d.day

/-- The argument checks performed by the datetime/date constructor
(MINYEAR = 1, MAXYEAR = 9999, month 1..12, day within the month). -/
def validDate (d : Date) : Bool :=
  decide (1 ≤ d.year) && decide (d.year ≤ 9999)
    && decide (1 ≤ d.month) && decide (d.month ≤ 12)
    && decide (1 ≤ d.day) && decide (d.day ≤ daysInMonth (isLeap d.year) d.month)

/-- Python date comparison, which is lexicographic on (year, month, day). -/
def dateLt (a b : Date) : Prop :=
  a.year < b.year ∨
    (a.year = b.year ∧ (a.month < b.month ∨ (a.month = b.month ∧ a.day < b.day)))

instance (a b : Date) : Decidable (dateLt a b) := by
  unfold dateLt; exact inferInstance

/-- Python date comparison a <= b. -/
def dateLe (a b : Date) : Prop := ¬ dateLt b a

instance (a b : Date) : Decidable (dateLe a b) := by
  unfold dateLe; exact inferInstance

/-- datetime(year, month, day): raises ValueError on out-of-range
components. -/
def mkDatetime (y m d : Nat) : Except PyError Date :=
  if validDate ⟨y, m, d⟩ then .ok ⟨y, m, d⟩ else .error .valueError

/- Decimal digit strings: used to model strftime('%Y-%m-%d') and
strptime(value, '%Y-%m-%d'). -/

/-- The decimal digit character for n in 0..9 (unused fallback otherwise). -/
def digitChar (n : Nat) : Char :=
  match n with
  | 0 => '0'
  | 1 => '1'
  | 2 => '2'
  | 3 => '3'
  | 4 => '4'
  | 5 => '5'
  | 6 => '6'
  | 7 => '7'
  | 8 => '8'
  | 9 => '9'
  | _ => '*'

/-- Decimal digits of n, most significant first, with structural fuel
(any fuel above n gives the digits of n). -/
def natToDigitsAux (fuel n : Nat) : List Char :=
  match fuel with
  | 0 => []
  | fuel + 1 =>
    if n < 10 then [digitChar n]
    else natToDigitsAux fuel (n / 10) ++ [digitChar (n % 10)]

/-- Decimal digit list of a natural number, most significant first. -/
def natToDigits (n : Nat) : List Char := natToDigitsAux (n + 1) n

/-- Numeric value of a digit character list (leading zeros allowed). -/
def digitsVal (cs : List Char) : Nat :=
  cs.foldl (fun a c => a * 10 + (c.toNat - 48)) 0

/-- Left-pad a character list with zeros up to width w (strftime zero
padding; this embedding assumes %Y pads the year to four digits). -/
def padZeros (w : Nat) (cs : List Char) : List Char :=
  List.replicate (w - cs.length) '0' ++ cs

/-- birthday.value.strftime('%Y-%m-%d'). -/
def strftimeYMD (d : Date) : String :=
  String.mk (padZeros 4 (natToDigits d.year) ++ '-' ::
    (padZeros 2 (natToDigits d.month) ++ '-' :: padZeros 2 (natToDigits d.day)))

/-- Split a character list at the first dash: (chars before it, rest
starting at the dash if present). -/
def breakDash : List Char → (List Char × List Char)
  | [] => ([], [])
  | c :: cs =>
    if c = '-' then ([], c :: cs)
    else
      let (a, b) := breakDash cs
      (c :: a, b)

/-- datetime.strptime(value, '%Y-%m-%d') followed by extraction of the
date: %Y consumes exactly four digits, %m and %d one or two digits, and
the resulting components must form a real date; anything else raises
ValueError. -/
def strptimeYMD (s : String) : Except PyError Date :=
  let cs := s.data
  let yp := breakDash cs
  match yp.2 with
  | '-' :: rest1 =>
    let mp := breakDash rest1
    match mp.2 with
    | '-' :: dp =>
      if yp.1.all Char.isDigit && yp.1.length == 4
          && mp.1.all Char.isDigit && decide (1 ≤ mp.1.length) && decide (mp.1.length ≤ 2)
          && dp.all Char.isDigit && decide (1 ≤ dp.length) && decide (dp.length ≤ 2) then
        let dt : Date := ⟨digitsVal yp.1, digitsVal mp.1, digitsVal dp⟩
        if validDate dt then .ok dt else .error .valueError
      else .error .valueError
    | _ => .error .valueError
  | _ => .error .valueError

/- Character classes for the regular expressions in the source.  The
embedding restricts Python's Unicode-aware classes to their ASCII parts;
every claim below is settled on ASCII data, where the two agree. -/

/-- Python regex whitespace class backslash-s (ASCII part). -/
def isSpaceChar (c : Char) : Bool :=
  c = ' ' || c = '\t' || c = '\n' || c = '\r' || c = '\x0b' || c = '\x0c'

/-- A separator character of the phone-splitting regex [,\s]+. -/
def isSep (c : Char) : Bool := c = ',' || isSpaceChar c

/-- Python regex word class backslash-w (ASCII part). -/
def isWordChar (c : Char) : Bool := c.isAlpha || c.isDigit || c = '_'

/-- A character of the email classes [\w\.-]. -/
def isWDD (c : Char) : Bool := isWordChar c || c = '.' || c = '-'

/-- re.split(r'[,\s]+', s): maximal separator runs split the string; a
leading or trailing run contributes an empty piece. -/
def splitSepsAux : List Char → List Char → List (List Char)
  | [], acc => [acc.reverse]
  | c :: rest, acc =>
    if isSep c then acc.reverse :: splitSepsAux (rest.dropWhile isSep) []
    else splitSepsAux rest (c :: acc)
termination_by cs _ => cs.length
decreasing_by
  · have h : ∀ l : List Char, (l.dropWhile isSep).length ≤ l.length := by
      intro l
      induction l with
      | nil => exact Nat.le_refl 0
      | cons a l ih =>
        simp only [List.dropWhile]
        split
        · exact Nat.le_succ_of_le ih
        · exact Nat.le_refl _
    have := h rest
    simp
    omega
  · simp

/-- re.split(r'[,\s]+', s) on a string, as a list of strings. -/
def reSplit (s : String) : List String :=
  (splitSepsAux s.data []).map (fun cs => String.mk cs)

/-- Python substring containment: needle in hay (on lists of chars). -/
def listIn (needle : List Char) : List Char → Bool
  | [] => needle.isEmpty
  | c :: rest => needle.isPrefixOf (c :: rest) || listIn needle rest

/-- Python substring containment on strings (the in operator). -/
def pyIn (needle hay : String) : Bool := listIn needle.data hay.data

/-- Python str.lower() (ASCII case folding, per character). -/
def pyLower (s : String) : String := String.mk (s.data.map Char.toLower)

/-- Consume exactly n regex digits; return the remaining characters. -/
def digitRun : Nat → List Char → Option (List Char)
  | 0, cs => some cs
  | _ + 1, [] => none
  | n + 1, c :: cs => if c.isDigit then digitRun n cs else none

/-- Body of the pattern +\d{2}-\d{3}-\d{7} (without anchors). -/
def bodyPlusGroups (cs : List Char) : Bool :=
  match cs with
  | '+' :: r =>
    match digitRun 2 r with
    | some ('-' :: r2) =>
      match digitRun 3 r2 with
      | some ('-' :: r3) => digitRun 7 r3 == some []
      | _ => false
    | _ => false
  | _ => false

/-- Body of the pattern +\d{12} (without anchors). -/
def bodyPlusDigits (cs : List Char) : Bool :=
  match cs with
  | '+' :: r => digitRun 12 r == some []
  | _ => false

/-- Body of the pattern \d{3}-\d{7} (without anchors). -/
def bodyShortGroups (cs : List Char) : Bool :=
  match digitRun 3 cs with
  | some ('-' :: r2) => digitRun 7 r2 == some []
  | _ => false

/-- Body of the pattern \d{10} (without anchors). -/
def bodyTenDigits (cs : List Char) : Bool := digitRun 10 cs == some []

/-- re.match(r'^body$', s): without re.MULTILINE the anchor $ matches at
the end of the string or just before a newline that ends the string, so
the pattern accepts the exact body and the body followed by one final
newline. -/
def reMatchDollar (body : List Char → Bool) (s : String) : Bool :=
  body s.data || (s.data.getLast? == some '\n' && body s.data.dropLast)

namespace Phone

/-- Phone.validate_phone: the two if-statements of the source, each
testing two anchored patterns. -/
def validate_phone (s : String) : Bool :=
  if reMatchDollar bodyPlusGroups s || reMatchDollar bodyPlusDigits s then true
  else if reMatchDollar bodyShortGroups s || reMatchDollar bodyTenDigits s then true
  else false

end Phone

/-- Modelled from the spec (section 3): a phone string of one of the four
accepted shapes, +NN-NNN-NNNNNNN, a plus sign followed by 12 digits,
NNN-NNNNNNN, or exactly 10 digits.  Used to compare the source's
validate_phone against the spec's wording. -/
def phoneShape (s : String) : Bool :=
  bodyPlusGroups s.data || bodyPlusDigits s.data
    || bodyShortGroups s.data || bodyTenDigits s.data

/-- Body of the email pattern [\w\.-]+@[\w\.-]+(\.\w+)+ (without anchors).
The local part is the (necessarily non-empty) run before the first at
sign; the domain must consist of [\w\.-] characters and end in a dot
followed by a non-empty word-character run, with at least one character
before that dot. -/
def emailBody (cs : List Char) : Bool :=
  let l := cs.takeWhile (fun c => c != '@')
  let rest := cs.drop l.length
  match rest with
  | '@' :: r =>
    !l.isEmpty && l.all isWDD && r.all isWDD &&
      (let w := r.reverse.takeWhile isWordChar
       !w.isEmpty && (r.reverse.drop w.length).head? == some '.'
         && decide (w.length + 2 ≤ r.length))
  | _ => false

namespace Email

/-- Email.validate_email: bool(re.match(pattern, value)) for the anchored
email pattern. -/
def validate_email (s : String) : Bool := reMatchDollar emailBody s

end Email

namespace Birthday

/-- Birthday.validate_birthday: the value must be a datetime not after
datetime.now().  In this embedding the value is always a datetime (the
isinstance test holds) and now is represented by its date, which is
exact because a parsed birthday datetime has time 00:00:00. -/
def validate_birthday (today value : Date) : Bool := decide (dateLe value today)

end Birthday

/-- The dynamically typed birthday slot of a Record: None, a Birthday
object wrapping a date, or a plain 'YYYY-MM-DD' string (the state that
AddressBook.save_to_file leaves behind). -/
inductive BirthdayField
  | none
  | obj (d : Date)
  | strB (s : String)
  deriving DecidableEq, Repr

/-- Python truthiness of the birthday slot: None and the empty string are
falsy, a Birthday object and a non-empty string are truthy. -/
def BirthdayField.truthy : BirthdayField → Bool
  | .none => false
  | .obj _ => true
  | .strB s => !s.data.isEmpty

/-- One contact record.  In every state reachable through the source's
own operations the phones and emails lists hold plain str values:
Record.process_phones and Record.update_record_phones stringify phones,
and emails are stringified in the constructor. -/
structure Record where
  name : String
  address : String
  phones : List String
  emails : List String
  birthday : BirthdayField
  deriving DecidableEq, Repr

namespace Record

/-- The inner token loop of Record.process_phones: each token of one
split phone entry is validated (Phone(token) echoes the token back as a
string) and an invalid token raises ValueError. -/
def processTokens : List String → Except PyError (List String)
  | [] => .ok []
  | t :: ts =>
    if Phone.validate_phone t then
      match processTokens ts with
      | .ok rest => .ok (t :: rest)
      | .error e => .error e
    else .error .valueError

/-- Record.process_phones: every entry is stringified, split on comma or
whitespace runs, and the resulting tokens are validated and accumulated
in order; the first invalid token raises ValueError. -/
def process_phones : List String → Except PyError (List String)
  | [] => .ok []
  | p :: ps =>
    match processTokens (reSplit p) with
    | .error e => .error e
    | .ok ts =>
      match process_phones ps with
      | .error e => .error e
      | .ok rest => .ok (ts ++ rest)

/-- Record.add_phone: Phone(phone) raises ValueError on an invalid
number, which the method catches and reports as the returned string
"Error: Invalid phone number"; on success the new Phone object is
appended and update_record_phones stringifies the list again, so the
phones list gains exactly the string phone at its end.  The returned
value is (record state after the call, returned message). -/
def add_phone (r : Record) (phone : String) : Record × String :=
  if Phone.validate_phone phone then
    ({ r with phones := r.phones ++ [phone] },
      "Phone number " ++ phone ++ " added for " ++ r.name)
  else
    (r, "Error: Invalid phone number")

/-- Attribute access p.value on an element of the phones list.  Stored
phone entries are plain Python str values, and str has no attribute
value, so the access raises AttributeError. -/
def strValueAttr (_p : String) : Except PyError String := .error .attributeError

/-- The list comprehension [p for p in phones if p.value != phone],
evaluated left to right: the filter condition of the first element
already raises. -/
def deleteFilter : List String → String → Except PyError (List String)
  | [], _ => .ok []
  | p :: ps, phone =>
    match strValueAttr p with
    | .error e => .error e
    | .ok v =>
      match deleteFilter ps phone with
      | .error e => .error e
      | .ok rest => .ok (if v != phone then p :: rest else rest)

/-- Record.delete_phone: rebuild the phones list without the entries
whose value attribute equals phone. -/
def delete_phone (r : Record) (phone : String) : Except PyError Record :=
  match deleteFilter r.phones phone with
  | .error e => .error e
  | .ok newPhones => .ok { r with phones := newPhones }

/-- The shared core of days_to_birthday and of the loop body of
get_upcoming_birthday_contacts: datetime(today.year, bm, bd) (ValueError
when that is not a real date), moved to the next year when already
passed, and the signed day difference to today. -/
def nextBirthdayDays (today : Date) (bm bd : Nat) : Except PyError Int :=
  match mkDatetime today.year bm bd with
  | .error e => .error e
  | .ok nb =>
    if dateLt nb today then
      match mkDatetime (today.year + 1) bm bd with
      | .error e => .error e
      | .ok nb2 => .ok ((nb2.toordinal : Int) - (today.toordinal : Int))
    else .ok ((nb.toordinal : Int) - (today.toordinal : Int))

/-- Record.days_to_birthday: None for a falsy birthday slot; a truthy
string slot has no value attribute (AttributeError); a Birthday object
leads to the day count.  today stands for datetime.now().date(). -/
def days_to_birthday (today : Date) (r : Record) : Except PyError (Option Int) :=
  match r.birthday with
  | .none => .ok Option.none
  | .strB s => if s.data.isEmpty then .ok Option.none else .error .attributeError
  | .obj b =>
    match nextBirthdayDays today b.month b.day with
    | .error e => .error e
    | .ok n => .ok (some n)

end Record

/-- One serialized record object of the persisted JSON document: the
fields of record.__dict__ at dump time, with the birthday slot holding a
date string or null. -/
structure RecordData where
  name : String
  address : String
  phones : List String
  emails : List String
  birthday : Option String
  deriving DecidableEq, Repr

/-- The file an AddressBook is loaded from: missing, content that
json.load rejects (JSONDecodeError), or a parsed document, represented
by its "records" list. -/
inductive FileState
  | absent
  | notJson
  | doc (records : List RecordData)

namespace AddressBook

/-- AddressBook.add_record: self.data[record.name] = record.  The
UserDict is modelled as a list of records in key insertion order; an
existing key is overwritten in place, a new key is appended. -/
def add_record (book : List Record) (r : Record) : List Record :=
  if book.any (fun x => x.name == r.name) then
    book.map (fun x => if x.name == r.name then r else x)
  else book ++ [r]

/-- The name test of the body of AddressBook.search_records: the
lower-cased query q is matched against the record name, guarded by the
seen-name set; the accumulator is (found records, seen names). -/
def searchName (q : String) (r : Record) (a : List Record × List String) :
    List Record × List String :=
  if pyIn q (pyLower r.name) && !a.2.contains r.name then (a.1 ++ [r], r.name :: a.2)
  else a

/-- The phone loop of the body of AddressBook.search_records: the guard
on the seen-name set is re-checked for every phone. -/
def searchPhones (q : String) (r : Record) (a : List Record × List String) :
    List Record × List String :=
  r.phones.foldl
    (fun a p =>
      if pyIn q (pyLower p) && !a.2.contains r.name then (a.1 ++ [r], r.name :: a.2)
      else a) a

/-- The email loop of the body of AddressBook.search_records: the record
is appended on the first matching email (no seen-set guard), and the
loop breaks. -/
def searchEmails (q : String) (r : Record) (a : List Record × List String) :
    List Record × List String :=
  if r.emails.any (fun e => pyIn q (pyLower e)) then (a.1 ++ [r], a.2) else a

/-- One iteration of the body of AddressBook.search_records: name test,
phone loop, email loop, in source order. -/
def searchOne (q : String) (acc : List Record × List String) (r : Record) :
    List Record × List String :=
  searchEmails q r (searchPhones q r (searchName q r acc))

/-- AddressBook.search_records. -/
def search_records (book : List Record) (query : String) : List Record :=
  (book.foldl (searchOne (pyLower query)) ([], [])).1

/-- The per-record step of AddressBook.save_to_file: record.__dict__ is
put into the document as is, and then, when the birthday slot is truthy,
the slot itself is overwritten with birthday.value.strftime('%Y-%m-%d');
a truthy string slot has no value attribute and raises AttributeError.
The result is (serialized object, record state after the step). -/
def saveStep (r : Record) : Except PyError (RecordData × Record) :=
  match r.birthday with
  | .none =>
    .ok ({ name := r.name, address := r.address, phones := r.phones,
           emails := r.emails, birthday := Option.none }, r)
  | .obj d =>
    .ok ({ name := r.name, address := r.address, phones := r.phones,
           emails := r.emails, birthday := some (strftimeYMD d) },
         { r with birthday := .strB (strftimeYMD d) })
  | .strB s =>
    if s.data.isEmpty then
      .ok ({ name := r.name, address := r.address, phones := r.phones,
             emails := r.emails, birthday := some s }, r)
    else .error .attributeError

/-- AddressBook.save_to_file: serialize the records in order.  The
returned pair is (the dumped "records" document, the book state after
the call); an AttributeError aborts the dump. -/
def save_to_file : List Record → Except PyError (List RecordData × List Record)
  | [] => .ok ([], [])
  | r :: rs =>
    match saveStep r with
    | .error e => .error e
    | .ok (rd, r') =>
      match save_to_file rs with
      | .error e => .error e
      | .ok (rds, rs') => .ok (rd :: rds, r' :: rs')

/-- [Phone(p) for p in record_data["phones"]]: each string is validated
by the Phone constructor (ValueError on failure) and echoes back as a
string. -/
def mkPhones : List String → Except PyError (List String)
  | [] => .ok []
  | p :: ps =>
    if Phone.validate_phone p then
      match mkPhones ps with
      | .ok rest => .ok (p :: rest)
      | .error e => .error e
    else .error .valueError

/-- [Email(e) for e in record_data["emails"]]: each string is validated
by the Email constructor (ValueError on failure). -/
def mkEmails : List String → Except PyError (List String)
  | [] => .ok []
  | e :: es =>
    if Email.validate_email e then
      match mkEmails es with
      | .ok rest => .ok (e :: rest)
      | .error err => .error err
    else .error .valueError

/-- Reconstruction of one Record inside load_from_file: Name and Address
accept any string; phones and emails go through their validating
constructors; the birthday is built under the source's truthiness guard
(if record_data["birthday"]), so both null and the empty string give no
birthday, and only a truthy string goes through strptime and the
Birthday constructor; finally Record.__init__ re-splits and re-validates
the phones. -/
def buildOne (today : Date) (rd : RecordData) : Except PyError Record :=
  match mkPhones rd.phones with
  | .error e => .error e
  | .ok phoneObjs =>
    match mkEmails rd.emails with
    | .error e => .error e
    | .ok emailObjs =>
      let bdayE : Except PyError BirthdayField :=
        match rd.birthday with
        | Option.none => .ok BirthdayField.none
        | some s =>
          if s.data.isEmpty then .ok BirthdayField.none
          else
            match strptimeYMD s with
            | .error e => .error e
            | .ok d =>
              if Birthday.validate_birthday today d then .ok (BirthdayField.obj d)
              else .error .valueError
      match bdayE with
      | .error e => .error e
      | .ok bday =>
        match Record.process_phones phoneObjs with
        | .error e => .error e
        | .ok phones =>
          .ok { name := rd.name, address := rd.address, phones := phones,
                emails := emailObjs, birthday := bday }

/-- The record loop of load_from_file: build each record and insert it
with add_record; the first raised error aborts the whole load. -/
def loadLoop (today : Date) : List RecordData → List Record → Except PyError (List Record)
  | [], book => .ok book
  | rd :: rds, book =>
    match buildOne today rd with
    | .error e => .error e
    | .ok r => loadLoop today rds (add_record book r)

/-- AddressBook.load_from_file: a missing file (FileNotFoundError) is
caught and yields a fresh empty book; json.load failure and every
constructor failure propagate.  today stands for datetime.now(), against
which reloaded birthdays are re-validated. -/
def load_from_file (today : Date) : FileState → Except PyError (List Record)
  | .absent => .ok []
  | .notJson => .error .jsonDecodeError
  | .doc rds => loadLoop today rds []

/-- The loop body of AddressBook.get_upcoming_birthday_contacts for one
record: a falsy birthday slot is skipped; a truthy string slot is first
reassigned to Birthday(datetime.strptime(slot, '%Y-%m-%d')) (mutating
the record); then the day count is computed and compared with days.  The
result is (the record if selected, the record state after the step). -/
def upcomingStep (today : Date) (days : Int) (r : Record) :
    Except PyError (Option Record × Record) :=
  match r.birthday with
  | .none => .ok (Option.none, r)
  | .strB s =>
    if s.data.isEmpty then .ok (Option.none, r)
    else
      match strptimeYMD s with
      | .error e => .error e
      | .ok d =>
        if Birthday.validate_birthday today d then
          let r2 := { r with birthday := .obj d }
          match Record.nextBirthdayDays today d.month d.day with
          | .error e => .error e
          | .ok n => .ok (if n = days then some r2 else Option.none, r2)
        else .error .valueError
  | .obj b =>
    match Record.nextBirthdayDays today b.month b.day with
    | .error e => .error e
    | .ok n => .ok (if n = days then some r else Option.none, r)

/-- AddressBook.get_upcoming_birthday_contacts: scan the records in
order, collecting those whose day count equals days exactly.  The
returned pair is (selected records, the book state after the call). -/
def get_upcoming_birthday_contacts (today : Date) (days : Int) :
    List Record → Except PyError (List Record × List Record)
  | [] => .ok ([], [])
  | r :: rs =>
    match upcomingStep today days r with
    | .error e => .error e
    | .ok (sel, r') =>
      match get_upcoming_birthday_contacts today days rs with
      | .error e => .error e
      | .ok (res, rs') =>
        .ok ((match sel with | some x => x :: res | Option.none => res), r' :: rs')

end AddressBook

/-- Modelled from the spec (section 4.2): the next occurrence of the
birthday's month and day, namely the current year's occurrence if it has
not yet passed, otherwise next year's. -/
def specNextOccurrence (today b : Date) : Date :=
  if dateLe today ⟨today.year, b.month, b.day⟩ then ⟨today.year, b.month, b.day⟩
  else ⟨today.year + 1, b.month, b.day⟩

/-- The serialized object that AddressBook.save_to_file produces for one
record (the first component of saveStep). -/
def docOf (r : Record) : RecordData :=
  { name := r.name, address := r.address, phones := r.phones, emails := r.emails,
    birthday :=
      match r.birthday with
      | .none => Option.none
      | .obj d => some (strftimeYMD d)
      | .strB s => some s }

/-- The record state that AddressBook.save_to_file leaves behind: a
Birthday-object slot is replaced by its rendered date string. -/
def stringifyBday (r : Record) : Record :=
  match r.birthday with
  | .obj d => { r with birthday := .strB (strftimeYMD d) }
  | _ => r

/- Calendar lemmas used by the birthday-count claims. -/

theorem validDate_iff (d : Date) :
    validDate d = true ↔
      1 ≤ d.year ∧ d.year ≤ 9999 ∧ 1 ≤ d.month ∧ d.month ≤ 12 ∧ 1 ≤ d.day ∧
        d.day ≤ daysInMonth (isLeap d.year) d.month := by
  simp [validDate, and_assoc]

theorem daysBeforeMonth_succ (leap : Bool) (m : Nat) :
    daysBeforeMonth leap (m + 1) = daysBeforeMonth leap m + daysInMonth leap m := rfl

theorem daysBeforeMonth_mono (leap : Bool) {m m' : Nat} (h : m ≤ m') :
    daysBeforeMonth leap m ≤ daysBeforeMonth leap m' := by
  induction h with
  | refl => exact Nat.le_refl _
  | step _h ih =>
    rw [daysBeforeMonth_succ]
    omega

theorem monthSum_lt (leap : Bool) {m1 d1 m2 d2 : Nat}
    (hm1 : 1 ≤ m1) (hm1' : m1 ≤ 12) (hd1' : d1 ≤ daysInMonth leap m1)
    (hd2 : 1 ≤ d2)
    (hlt : m1 < m2 ∨ (m1 = m2 ∧ d1 < d2)) :
    daysBeforeMonth leap m1 + d1 < daysBeforeMonth leap m2 + d2 := by
  rcases hlt with h | ⟨rfl, h⟩
  · have h1 : daysBeforeMonth leap m1 + d1 ≤ daysBeforeMonth leap (m1 + 1) := by
      rw [daysBeforeMonth_succ]; omega
    have h2 : daysBeforeMonth leap (m1 + 1) ≤ daysBeforeMonth leap m2 :=
      daysBeforeMonth_mono leap h
    omega
  · omega

theorem monthSum_le (leap : Bool) {m1 d1 m2 d2 : Nat}
    (hm1 : 1 ≤ m1) (hm1' : m1 ≤ 12) (hd1' : d1 ≤ daysInMonth leap m1)
    (hd2 : 1 ≤ d2)
    (hle : m1 < m2 ∨ (m1 = m2 ∧ d1 ≤ d2)) :
    daysBeforeMonth leap m1 + d1 ≤ daysBeforeMonth leap m2 + d2 := by
  rcases hle with h | ⟨rfl, h⟩
  · exact Nat.le_of_lt (monthSum_lt leap hm1 hm1' hd1' hd2 (Or.inl h))
  · omega

theorem monthSum_inj (leap : Bool) {m1 d1 m2 d2 : Nat}
    (hm1 : 1 ≤ m1) (hm1' : m1 ≤ 12) (hd1 : 1 ≤ d1) (hd1' : d1 ≤ daysInMonth leap m1)
    (hm2 : 1 ≤ m2) (hm2' : m2 ≤ 12) (hd2 : 1 ≤ d2) (hd2' : d2 ≤ daysInMonth leap m2)
    (heq : daysBeforeMonth leap m1 + d1 = daysBeforeMonth leap m2 + d2) :
    m1 = m2 ∧ d1 = d2 := by
  rcases Nat.lt_trichotomy m1 m2 with h | rfl | h
  · have := monthSum_lt leap hm1 hm1' hd1' hd2 (Or.inl h)
    omega
  · rcases Nat.lt_trichotomy d1 d2 with h | rfl | h
    · have := monthSum_lt leap hm1 hm1' hd1' hd2 (Or.inr ⟨rfl, h⟩)
      omega
    · exact ⟨rfl, rfl⟩
    · have := monthSum_lt leap hm2 hm2' hd2' hd1 (Or.inr ⟨rfl, h⟩)
      omega
  · have := monthSum_lt leap hm2 hm2' hd2' hd1 (Or.inl h)
    omega

theorem daysBeforeMonth_thirteen (leap : Bool) :
    daysBeforeMonth leap 13 = if leap then 366 else 365 := by
  cases leap <;> decide

theorem monthSum_le_year (leap : Bool) {m d : Nat}
    (hm : 1 ≤ m) (hm' : m ≤ 12) (hd' : d ≤ daysInMonth leap m) :
    daysBeforeMonth leap m + d ≤ if leap then 366 else 365 := by
  have h1 : daysBeforeMonth leap m + d ≤ daysBeforeMonth leap (m + 1) := by
    rw [daysBeforeMonth_succ]; omega
  have h2 : daysBeforeMonth leap (m + 1) ≤ daysBeforeMonth leap 13 :=
    daysBeforeMonth_mono leap (by omega)
  have h3 := daysBeforeMonth_thirteen leap
  cases leap <;> simp at h3 ⊢ <;> omega

set_option maxHeartbeats 1000000 in
theorem daysBeforeYear_succ {y : Nat} (hy : 1 ≤ y) :
    daysBeforeYear (y + 1) = daysBeforeYear y + (if isLeap y then 366 else 365) := by
  by_cases hL : isLeap y = true
  · rw [if_pos hL]
    simp only [isLeap, Bool.and_eq_true, beq_iff_eq, Bool.or_eq_true, bne_iff_ne,
      ne_eq] at hL
    unfold daysBeforeYear
    omega
  · rw [if_neg hL]
    simp only [isLeap, Bool.and_eq_true, beq_iff_eq, Bool.or_eq_true, bne_iff_ne,
      ne_eq, not_and, not_or, not_not] at hL
    unfold daysBeforeYear
    rcases Nat.decEq (y % 4) 0 with h4 | h4
    · omega
    · have := hL h4
      omega

theorem day_le_daysInMonth_all (l1 l2 : Bool) {m d : Nat} (hm1 : 1 ≤ m) (hm2 : m ≤ 12)
    (hfeb : ¬(m = 2 ∧ d = 29)) (h : d ≤ daysInMonth l1 m) : d ≤ daysInMonth l2 m := by
  interval_cases m <;> cases l1 <;> cases l2 <;> simp_all [daysInMonth] <;> omega

/-- Behaviour of the shared day-count core on a valid non-Feb-29
birthday: no exception, a non-negative count that is zero exactly on the
birthday's month and day, equal to the ordinal distance to the next
occurrence. -/
theorem nextBirthdayDays_ok (today b : Date)
    (ht : validDate today = true) (hb : validDate b = true)
    (hy : today.year ≤ 9998) (hfeb : ¬(b.month = 2 ∧ b.day = 29)) :
    ∃ n : Int, Record.nextBirthdayDays today b.month b.day = .ok n ∧ 0 ≤ n ∧
      (n = 0 ↔ (today.month = b.month ∧ today.day = b.day)) ∧
      n = ((specNextOccurrence today b).toordinal : Int) - (today.toordinal : Int) := by
  obtain ⟨hty1, hty2, htm1, htm2, htd1, htd2⟩ := (validDate_iff today).mp ht
  obtain ⟨hby1, hby2, hbm1, hbm2, hbd1, hbd2⟩ := (validDate_iff b).mp hb
  have hbd2' : b.day ≤ daysInMonth (isLeap today.year) b.month :=
    day_le_daysInMonth_all (isLeap b.year) (isLeap today.year) hbm1 hbm2 hfeb hbd2
  have hv1 : validDate ⟨today.year, b.month, b.day⟩ = true :=
    (validDate_iff _).mpr ⟨hty1, hty2, hbm1, hbm2, hbd1, hbd2'⟩
  unfold Record.nextBirthdayDays mkDatetime
  simp only [hv1, if_true]
  by_cases hpass : dateLt ⟨today.year, b.month, b.day⟩ today
  · have hbd2'' : b.day ≤ daysInMonth (isLeap (today.year + 1)) b.month :=
      day_le_daysInMonth_all (isLeap b.year) (isLeap (today.year + 1)) hbm1 hbm2 hfeb hbd2
    have hv2 : validDate ⟨today.year + 1, b.month, b.day⟩ = true :=
      (validDate_iff _).mpr ⟨show 1 ≤ today.year + 1 by omega,
        show today.year + 1 ≤ 9999 by omega, hbm1, hbm2, hbd1, hbd2''⟩
    rw [if_pos hpass]
    simp only [hv2, if_true]
    have hub : daysBeforeMonth (isLeap today.year) today.month + today.day ≤
        (if isLeap today.year then 366 else 365) :=
      monthSum_le_year (isLeap today.year) htm1 htm2 htd2
    have hsucc := daysBeforeYear_succ hty1
    refine ⟨_, rfl, ?_, ?_, ?_⟩
    · simp only [Date.toordinal]
      cases hL : isLeap today.year <;> simp only [hL, if_true, if_false] at hub hsucc <;>
        omega
    · constructor
      · intro h0
        exfalso
        simp only [Date.toordinal] at h0
        cases hL : isLeap today.year <;> simp only [hL, if_true, if_false] at hub hsucc <;>
          rw [hL] at h0 <;> omega
      · intro hmd
        exfalso
        obtain ⟨hm, hd⟩ := hmd
        simp only [dateLt] at hpass
        omega
    · simp only [specNextOccurrence]
      rw [if_neg (show ¬ dateLe today ⟨today.year, b.month, b.day⟩ from
        fun hc => hc hpass)]
  · rw [if_neg hpass]
    have hpass0 : dateLe today ⟨today.year, b.month, b.day⟩ := hpass
    simp only [dateLt, lt_irrefl, false_or, true_and, not_or, not_and, not_lt] at hpass
    obtain ⟨hmle, hdle⟩ := hpass
    have hle : today.month < b.month ∨ (today.month = b.month ∧ today.day ≤ b.day) := by
      rcases Nat.lt_or_ge today.month b.month with h | h
      · exact Or.inl h
      · have heq : today.month = b.month := by omega
        exact Or.inr ⟨heq, by have := hdle heq.symm; omega⟩
    refine ⟨_, rfl, ?_, ?_, ?_⟩
    · have := monthSum_le (isLeap today.year) htm1 htm2 htd2 hbd1 hle
      simp only [Date.toordinal]
      omega
    · constructor
      · intro h0
        simp only [Date.toordinal] at h0
        have hsums : daysBeforeMonth (isLeap today.year) today.month + today.day =
            daysBeforeMonth (isLeap today.year) b.month + b.day := by omega
        exact monthSum_inj (isLeap today.year) htm1 htm2 htd1 htd2 hbm1 hbm2 hbd1 hbd2'
          hsums
      · intro hmd
        obtain ⟨hm, hd⟩ := hmd
        simp only [Date.toordinal, hm, hd]
        omega
    · simp only [specNextOccurrence]
      rw [if_pos hpass0]


/- Claim C7. -/

/-- C7 (amended): days_to_birthday returns None when the record has no
birthday; otherwise, for a birthday that is a Birthday object holding a
valid date other than February 29 (and with today's year below 9999), it
raises nothing and returns a non-negative integer equal to the ordinal
distance from today to the next occurrence of the birthday's month and
day, which is zero exactly when today is that occurrence.  (The original
claim fails for February-29 birthdays, see the counterexample.) -/
theorem days_to_birthday_spec (today b : Date) (r : Record)
    (ht : validDate today = true) (hy : today.year ≤ 9998)
    (hb : validDate b = true) (hfeb : ¬(b.month = 2 ∧ b.day = 29)) :
    (r.birthday = BirthdayField.none →
      Record.days_to_birthday today r = .ok Option.none) ∧
    (r.birthday = BirthdayField.obj b →
      ∃ n : Int, Record.days_to_birthday today r = .ok (some n) ∧ 0 ≤ n ∧
        (n = 0 ↔ (today.month = b.month ∧ today.day = b.day)) ∧
        n = ((specNextOccurrence today b).toordinal : Int) - (today.toordinal : Int)) := by
  constructor
  · intro h
    simp [Record.days_to_birthday, h]
  · intro h
    obtain ⟨n, hn, h0, hiff, hspec⟩ := nextBirthdayDays_ok today b ht hb hy hfeb
    refine ⟨n, ?_, h0, hiff, hspec⟩
    simp [Record.days_to_birthday, h, hn]

/-- Witness for C7 at a concrete record and date. -/
theorem days_to_birthday_spec_witness :
    ∃ n : Int,
      Record.days_to_birthday ⟨2026, 10, 12⟩
          { name := "Ann", address := "Main St", phones := ["380-1234567"],
            emails := ["ann@x.com"], birthday := .obj ⟨2000, 5, 1⟩ } = .ok (some n) ∧
        0 ≤ n := by
  obtain ⟨n, hn, h0, _, _⟩ :=
    (days_to_birthday_spec ⟨2026, 10, 12⟩ ⟨2000, 5, 1⟩
      { name := "Ann", address := "Main St", phones := ["380-1234567"],
        emails := ["ann@x.com"], birthday := .obj ⟨2000, 5, 1⟩ }
      (by decide) (by decide) (by decide) (by decide)).2 rfl
  exact ⟨n, hn, h0⟩

/-- C7 counterexample: for a February-29 birthday, days_to_birthday
raises ValueError (datetime(2025, 2, 29) does not exist) instead of
returning a non-negative integer, refuting the claim that it raises
nothing for every record with a birthday. -/
theorem days_to_birthday_feb29_counterexample :
    Record.days_to_birthday ⟨2025, 1, 1⟩
      { name := "Leap", address := "x", phones := ["1234567890"],
        emails := [], birthday := .obj ⟨2024, 2, 29⟩ } = .error .valueError := by
  rfl

/- Claim C8. -/

/-- C8 (amended): provided every record's birthday, when present, is a
Birthday object holding a valid date other than February 29 (and today's
year is below 9999), get_upcoming_birthday_contacts(days) raises nothing
and returns exactly those records whose days_to_birthday count equals
days; records without a birthday are never included.  (The original
claim fails when a record has a February-29 birthday, in which case the
call raises ValueError and returns nothing, see the counterexample.) -/
theorem get_upcoming_exact_match (today : Date) (days : Int) (book : List Record)
    (ht : validDate today = true) (hy : today.year ≤ 9998)
    (hwf : ∀ r ∈ book, r.birthday = BirthdayField.none ∨
      ∃ b, r.birthday = BirthdayField.obj b ∧ validDate b = true ∧
        ¬(b.month = 2 ∧ b.day = 29)) :
    ∃ res book2,
      AddressBook.get_upcoming_birthday_contacts today days book = .ok (res, book2) ∧
      ∀ r, r ∈ res ↔ (r ∈ book ∧ Record.days_to_birthday today r = .ok (some days)) := by
  induction book with
  | nil => exact ⟨[], [], rfl, by simp⟩
  | cons r rs ih =>
    obtain ⟨res, book2, hrec, hmem⟩ := ih (fun x hx => hwf x (List.mem_cons_of_mem _ hx))
    rcases hwf r (List.mem_cons_self _ _) with hnone | ⟨b, hobj, hb, hfeb⟩
    · refine ⟨res, r :: book2, ?_, ?_⟩
      · simp only [AddressBook.get_upcoming_birthday_contacts, AddressBook.upcomingStep,
          hnone, hrec]
      · intro x
        rw [hmem x]
        have hmismatch : Record.days_to_birthday today r ≠ .ok (some days) := by
          simp [Record.days_to_birthday, hnone]
        constructor
        · rintro ⟨hx, hP⟩
          exact ⟨List.mem_cons_of_mem _ hx, hP⟩
        · rintro ⟨hx, hP⟩
          rcases List.mem_cons.mp hx with rfl | hx
          · exact absurd hP hmismatch
          · exact ⟨hx, hP⟩
    · obtain ⟨n, hn, _, _, _⟩ := nextBirthdayDays_ok today b ht hb hy hfeb
      have hdtb : Record.days_to_birthday today r = .ok (some n) := by
        simp [Record.days_to_birthday, hobj, hn]
      by_cases hnd : n = days
      · refine ⟨r :: res, r :: book2, ?_, ?_⟩
        · simp only [AddressBook.get_upcoming_birthday_contacts, AddressBook.upcomingStep,
            hobj, hn, hrec, if_pos hnd]
        · intro x
          constructor
          · intro hx
            rcases List.mem_cons.mp hx with rfl | hx
            · exact ⟨List.mem_cons_self _ _, by rw [hdtb, hnd]⟩
            · obtain ⟨hx', hP⟩ := (hmem x).mp hx
              exact ⟨List.mem_cons_of_mem _ hx', hP⟩
          · rintro ⟨hx, hP⟩
            rcases List.mem_cons.mp hx with rfl | hx
            · exact List.mem_cons_self _ _
            · exact List.mem_cons_of_mem _ ((hmem x).mpr ⟨hx, hP⟩)
      · refine ⟨res, r :: book2, ?_, ?_⟩
        · simp only [AddressBook.get_upcoming_birthday_contacts, AddressBook.upcomingStep,
            hobj, hn, hrec, if_neg hnd]
        · intro x
          rw [hmem x]
          have hmismatch : Record.days_to_birthday today r ≠ .ok (some days) := by
            rw [hdtb]
            intro hc
            exact hnd (by injection hc with h1; injection h1)
          constructor
          · rintro ⟨hx, hP⟩
            exact ⟨List.mem_cons_of_mem _ hx, hP⟩
          · rintro ⟨hx, hP⟩
            rcases List.mem_cons.mp hx with rfl | hx
            · exact absurd hP hmismatch
            · exact ⟨hx, hP⟩

/-- Witness for C8 at a concrete book and query. -/
theorem get_upcoming_exact_match_witness :
    ∃ res book2,
      AddressBook.get_upcoming_birthday_contacts ⟨2026, 10, 12⟩ 201
          [{ name := "Ann", address := "Main St", phones := ["380-1234567"],
             emails := ["ann@x.com"], birthday := .obj ⟨2000, 5, 1⟩ }] =
        .ok (res, book2) := by
  obtain ⟨res, book2, hres, _⟩ :=
    get_upcoming_exact_match ⟨2026, 10, 12⟩ 201
      [{ name := "Ann", address := "Main St", phones := ["380-1234567"],
         emails := ["ann@x.com"], birthday := .obj ⟨2000, 5, 1⟩ }]
      (by decide) (by decide)
      (by
        intro r hr
        rcases List.mem_singleton.mp hr with rfl
        exact Or.inr ⟨⟨2000, 5, 1⟩, rfl, by decide, by decide⟩)
  exact ⟨res, book2, hres⟩

/-- C8 counterexample: a book holding one record with a February-29
birthday makes get_upcoming_birthday_contacts raise ValueError instead
of returning the (empty) list of exact matches. -/
theorem get_upcoming_feb29_counterexample :
    AddressBook.get_upcoming_birthday_contacts ⟨2025, 1, 1⟩ 0
      [{ name := "Leap", address := "x", phones := ["1234567890"],
         emails := [], birthday := .obj ⟨2024, 2, 29⟩ }] = .error .valueError := by
  rfl

/- Digit-string lemmas: strptime('%Y-%m-%d') inverts strftime('%Y-%m-%d')
on valid dates. -/

theorem digitChar_isDigit {n : Nat} (h : n < 10) : (digitChar n).isDigit = true := by
  interval_cases n <;> decide

theorem digitChar_val {n : Nat} (h : n < 10) : (digitChar n).toNat - 48 = n := by
  interval_cases n <;> decide

theorem natToDigitsAux_all_digits :
    ∀ fuel n : Nat, n < fuel → (natToDigitsAux fuel n).all Char.isDigit = true := by
  intro fuel
  induction fuel with
  | zero => intro n h; omega
  | succ fuel ih =>
    intro n h
    rw [natToDigitsAux]
    split
    · rename_i h10
      simp [digitChar_isDigit h10]
    · rename_i h10
      rw [List.all_append]
      have h1 := ih (n / 10) (by omega)
      have h2 : (digitChar (n % 10)).isDigit = true := digitChar_isDigit (by omega)
      simp [h1, h2]

theorem natToDigits_all_digits (n : Nat) : (natToDigits n).all Char.isDigit = true :=
  natToDigitsAux_all_digits (n + 1) n (by omega)

theorem digitsVal_natToDigitsAux :
    ∀ fuel n : Nat, n < fuel → digitsVal (natToDigitsAux fuel n) = n := by
  intro fuel
  induction fuel with
  | zero => intro n h; omega
  | succ fuel ih =>
    intro n h
    rw [natToDigitsAux]
    split
    · rename_i h10
      simp [digitsVal, digitChar_val h10]
    · rename_i h10
      have h1 := ih (n / 10) (by omega)
      have h2 : (digitChar (n % 10)).toNat - 48 = n % 10 := digitChar_val (by omega)
      simp only [digitsVal, List.foldl_append, List.foldl] at *
      rw [h1, h2]
      omega

theorem digitsVal_natToDigits (n : Nat) : digitsVal (natToDigits n) = n :=
  digitsVal_natToDigitsAux (n + 1) n (by omega)

theorem foldl_zeros : ∀ k : Nat,
    List.foldl (fun a c => a * 10 + (c.toNat - 48)) 0 (List.replicate k '0') = 0 := by
  intro k
  induction k with
  | zero => rfl
  | succ k ih => simpa [List.replicate] using ih

theorem digitsVal_padZeros (w : Nat) (cs : List Char) :
    digitsVal (padZeros w cs) = digitsVal cs := by
  simp only [digitsVal, padZeros, List.foldl_append, foldl_zeros]

theorem padZeros_all_digits {cs : List Char} (h : cs.all Char.isDigit = true) (w : Nat) :
    (padZeros w cs).all Char.isDigit = true := by
  simp only [padZeros, List.all_append, h, Bool.and_true]
  induction (w - cs.length) with
  | zero => rfl
  | succ k ih => simpa [List.replicate] using ih

theorem padZeros_length {cs : List Char} {w : Nat} (h : cs.length ≤ w) :
    (padZeros w cs).length = w := by
  simp only [padZeros, List.length_append, List.length_replicate]
  omega

theorem natToDigitsAux_length_le : ∀ (fuel n k : Nat), n < fuel → 1 ≤ k → n < 10 ^ k →
    (natToDigitsAux fuel n).length ≤ k := by
  intro fuel
  induction fuel with
  | zero => intro n k h; omega
  | succ fuel ih =>
    intro n k h hk hn
    rw [natToDigitsAux]
    split
    · rename_i h10
      simpa using hk
    · rename_i h10
      match k, hk with
      | 1, _ =>
        exfalso
        simp at hn
        omega
      | k' + 2, _ =>
        have hdiv : n / 10 < 10 ^ (k' + 1) := by
          have : n < 10 ^ (k' + 1) * 10 := by
            rw [← pow_succ]
            exact hn
          omega
        have := ih (n / 10) (k' + 1) (by omega) (by omega) hdiv
        simp only [List.length_append, List.length_cons, List.length_nil]
        omega

theorem natToDigits_length_le (n k : Nat) (hk : 1 ≤ k) (hn : n < 10 ^ k) :
    (natToDigits n).length ≤ k :=
  natToDigitsAux_length_le (n + 1) n k (by omega) hk hn

theorem isDigit_ne_dash {c : Char} (h : c.isDigit = true) : ¬ c = '-' := by
  intro hc
  subst hc
  exact absurd h (by decide)

theorem breakDash_append {l r : List Char} (h : ∀ c ∈ l, ¬ c = '-') :
    breakDash (l ++ '-' :: r) = (l, '-' :: r) := by
  induction l with
  | nil => simp [breakDash]
  | cons c cs ih =>
    have hc : ¬ c = '-' := h c (List.mem_cons_self _ _)
    have ih' := ih (fun x hx => h x (List.mem_cons_of_mem _ hx))
    simp [breakDash, hc, ih']

theorem all_not_dash_of_digits {l : List Char} (h : l.all Char.isDigit = true) :
    ∀ c ∈ l, ¬ c = '-' := by
  intro c hc
  exact isDigit_ne_dash (by
    rw [List.all_eq_true] at h
    exact h c hc)

/-- strptime('%Y-%m-%d') inverts strftime('%Y-%m-%d') on every date the
datetime constructor accepts. -/
theorem strptime_strftime {d : Date} (hv : validDate d = true) :
    strptimeYMD (strftimeYMD d) = .ok d := by
  obtain ⟨y, m, dd⟩ := d
  obtain ⟨h1, h2, h3, h4, h5, h6⟩ := (validDate_iff ⟨y, m, dd⟩).mp hv
  simp only at h1 h2 h3 h4 h5 h6
  have hdim : daysInMonth (isLeap y) m ≤ 31 := by
    interval_cases m <;> cases hL : isLeap y <;> simp [daysInMonth] <;> omega
  have hyall : (padZeros 4 (natToDigits y)).all Char.isDigit = true :=
    padZeros_all_digits (natToDigits_all_digits y) 4
  have hmall : (padZeros 2 (natToDigits m)).all Char.isDigit = true :=
    padZeros_all_digits (natToDigits_all_digits m) 2
  have hdall : (padZeros 2 (natToDigits dd)).all Char.isDigit = true :=
    padZeros_all_digits (natToDigits_all_digits dd) 2
  have hylen : (padZeros 4 (natToDigits y)).length = 4 :=
    padZeros_length (natToDigits_length_le y 4 (by omega) (by omega))
  have hmlen : (padZeros 2 (natToDigits m)).length = 2 :=
    padZeros_length (natToDigits_length_le m 2 (by omega) (by omega))
  have hdlen : (padZeros 2 (natToDigits dd)).length = 2 :=
    padZeros_length (natToDigits_length_le dd 2 (by omega) (by omega))
  have hbreak1 : breakDash (padZeros 4 (natToDigits y) ++ '-' ::
      (padZeros 2 (natToDigits m) ++ '-' :: padZeros 2 (natToDigits dd))) =
      (padZeros 4 (natToDigits y),
        '-' :: (padZeros 2 (natToDigits m) ++ '-' :: padZeros 2 (natToDigits dd))) :=
    breakDash_append (all_not_dash_of_digits hyall)
  have hbreak2 : breakDash (padZeros 2 (natToDigits m) ++ '-' :: padZeros 2 (natToDigits dd)) =
      (padZeros 2 (natToDigits m), '-' :: padZeros 2 (natToDigits dd)) :=
    breakDash_append (all_not_dash_of_digits hmall)
  have hyval : digitsVal (padZeros 4 (natToDigits y)) = y := by
    rw [digitsVal_padZeros, digitsVal_natToDigits]
  have hmval : digitsVal (padZeros 2 (natToDigits m)) = m := by
    rw [digitsVal_padZeros, digitsVal_natToDigits]
  have hdval : digitsVal (padZeros 2 (natToDigits dd)) = dd := by
    rw [digitsVal_padZeros, digitsVal_natToDigits]
  simp only [strptimeYMD, strftimeYMD, hbreak1, hbreak2, hyall, hmall, hdall, hylen,
    hmlen, hdlen, hyval, hmval, hdval, beq_self_eq_true, decide_True, Bool.and_self,
    Bool.true_and, Bool.and_true, if_true]
  simp [hv]

/- Claim C10. -/

theorem strftimeYMD_data_ne_nil (d : Date) : (strftimeYMD d).data.isEmpty = false := by
  show (padZeros 4 (natToDigits d.year) ++ '-' ::
    (padZeros 2 (natToDigits d.month) ++ '-' :: padZeros 2 (natToDigits d.day))).isEmpty
      = false
  cases h : padZeros 4 (natToDigits d.year) <;> rfl

theorem upcomingStep_strB (today d : Date) (days : Int) (r : Record)
    (hv : validDate d = true) (hle : dateLe d today) :
    AddressBook.upcomingStep today days { r with birthday := .strB (strftimeYMD d) } =
      AddressBook.upcomingStep today days { r with birthday := .obj d } := by
  simp only [AddressBook.upcomingStep, strftimeYMD_data_ne_nil d, Bool.false_eq_true,
    if_false, strptime_strftime hv, Birthday.validate_birthday, decide_eq_true hle,
    if_true]

theorem upcomingStep_snd (today : Date) (days : Int) (rr r2 : Record)
    (sel : Option Record) (d : Date) (hb : rr.birthday = .obj d)
    (h : AddressBook.upcomingStep today days rr = .ok (sel, r2)) : r2 = rr := by
  simp only [AddressBook.upcomingStep, hb] at h
  rcases hn : Record.nextBirthdayDays today d.month d.day with e | n <;> rw [hn] at h
  · exact absurd h (by simp)
  · injection h with h'
    injection h' with _ h2
    exact h2.symm

theorem upcoming_book2_split (today : Date) (days : Int) :
    ∀ (A : List Record) (x : Record) (B : List Record) (res book2 : List Record),
      AddressBook.get_upcoming_birthday_contacts today days (A ++ x :: B) =
        .ok (res, book2) →
      ∃ A2 x2 B2 sel, book2 = A2 ++ x2 :: B2 ∧ A2.length = A.length ∧
        AddressBook.upcomingStep today days x = .ok (sel, x2) := by
  intro A
  induction A with
  | nil =>
    intro x B res book2 h
    rw [List.nil_append, AddressBook.get_upcoming_birthday_contacts] at h
    rcases hs : AddressBook.upcomingStep today days x with e | p <;> rw [hs] at h
    · exact absurd h (by simp)
    · obtain ⟨sel, x2⟩ := p
      rcases ht : AddressBook.get_upcoming_birthday_contacts today days B with e | q <;>
        rw [ht] at h
      · exact absurd h (by simp)
      · obtain ⟨res', B2⟩ := q
        injection h with h'
        injection h' with _ h2
        refine ⟨[], x2, B2, sel, ?_, rfl, rfl⟩
        rw [List.nil_append, ← h2]
  | cons a A ih =>
    intro x B res book2 h
    rw [List.cons_append, AddressBook.get_upcoming_birthday_contacts] at h
    rcases hs : AddressBook.upcomingStep today days a with e | p <;> rw [hs] at h
    · exact absurd h (by simp)
    · obtain ⟨sa, a2⟩ := p
      rcases ht : AddressBook.get_upcoming_birthday_contacts today days (A ++ x :: B)
          with e | q <;> rw [ht] at h
      · exact absurd h (by simp)
      · obtain ⟨res', book2'⟩ := q
        injection h with h'
        injection h' with _ h2
        obtain ⟨A2, x2, B2, sel, hb2, hlen, hstep⟩ := ih x B res' book2' ht
        refine ⟨a2 :: A2, x2, B2, sel, ?_, ?_, hstep⟩
        · rw [← h2, hb2]
          rfl
        · simp [hlen]

/-- C10: get_upcoming_birthday_contacts tolerates a record whose birthday
slot holds the 'YYYY-MM-DD' string left behind by save_to_file: the call
behaves exactly as if that record held the corresponding Birthday
object, and in the non-raising case the record in the resulting book
state has been reassigned the parsed Birthday object. -/
theorem get_upcoming_string_birthday_tolerated (today d : Date) (days : Int)
    (A B : List Record) (r : Record)
    (hv : validDate d = true) (hle : dateLe d today) :
    AddressBook.get_upcoming_birthday_contacts today days
        (A ++ { r with birthday := .strB (strftimeYMD d) } :: B) =
      AddressBook.get_upcoming_birthday_contacts today days
        (A ++ { r with birthday := .obj d } :: B) ∧
    (∀ res book2,
      AddressBook.get_upcoming_birthday_contacts today days
          (A ++ { r with birthday := .strB (strftimeYMD d) } :: B) = .ok (res, book2) →
      ∃ A2 B2, book2 = A2 ++ { r with birthday := .obj d } :: B2 ∧
        A2.length = A.length) := by
  have hstep := upcomingStep_strB today d days r hv hle
  have heq : AddressBook.get_upcoming_birthday_contacts today days
      (A ++ { r with birthday := .strB (strftimeYMD d) } :: B) =
      AddressBook.get_upcoming_birthday_contacts today days
        (A ++ { r with birthday := .obj d } :: B) := by
    induction A with
    | nil =>
      rw [List.nil_append, List.nil_append, AddressBook.get_upcoming_birthday_contacts,
        AddressBook.get_upcoming_birthday_contacts, hstep]
    | cons a A ih =>
      rw [List.cons_append, List.cons_append, AddressBook.get_upcoming_birthday_contacts,
        AddressBook.get_upcoming_birthday_contacts, ih]
  refine ⟨heq, ?_⟩
  intro res book2 h
  obtain ⟨A2, x2, B2, sel, hb2, hlen, hs⟩ :=
    upcoming_book2_split today days A _ B res book2 (by rw [← heq]; exact h)
  have : x2 = { r with birthday := .obj d } :=
    upcomingStep_snd today days _ x2 sel d rfl hs
  exact ⟨A2, B2, by rw [hb2, this], hlen⟩

/-- Witness for C10 at a concrete record, string and date. -/
theorem get_upcoming_string_birthday_tolerated_witness :
    AddressBook.get_upcoming_birthday_contacts ⟨2026, 10, 12⟩ 201
        [{ name := "Ann", address := "Main St", phones := ["380-1234567"],
           emails := ["ann@x.com"], birthday := .strB "2000-05-01" }] =
      AddressBook.get_upcoming_birthday_contacts ⟨2026, 10, 12⟩ 201
        [{ name := "Ann", address := "Main St", phones := ["380-1234567"],
           emails := ["ann@x.com"], birthday := .obj ⟨2000, 5, 1⟩ }] := by
  have h := (get_upcoming_string_birthday_tolerated ⟨2026, 10, 12⟩ ⟨2000, 5, 1⟩ 201 [] []
    { name := "Ann", address := "Main St", phones := ["380-1234567"],
      emails := ["ann@x.com"], birthday := .none }
    (by decide) (by decide)).1
  have hs : strftimeYMD ⟨2000, 5, 1⟩ = "2000-05-01" := by decide
  rw [hs] at h
  simpa using h

/- Claim C1. -/

/-- C1 (code bug): for every record holding at least one phone,
delete_phone raises AttributeError, because stored phone entries are
plain str values and the filter accesses p.value on them; the removal
the claim (and the spec) describes never happens. -/
theorem delete_phone_raises (r : Record) (p : String) (h : r.phones ≠ []) :
    Record.delete_phone r p = .error .attributeError := by
  obtain ⟨q, qs, hq⟩ : ∃ q qs, r.phones = q :: qs := by
    cases hp : r.phones with
    | nil => exact absurd hp h
    | cons q qs => exact ⟨q, qs, rfl⟩
  simp [Record.delete_phone, hq, Record.deleteFilter, Record.strValueAttr]

/-- Witness for C1 at the claim's failing input: deleting a phone that
is stored (exact match present) raises instead of removing it. -/
theorem delete_phone_raises_witness :
    Record.delete_phone
        { name := "Ann", address := "Main St", phones := ["1234567890"],
          emails := [], birthday := .none } "1234567890" = .error .attributeError :=
  delete_phone_raises
    { name := "Ann", address := "Main St", phones := ["1234567890"],
      emails := [], birthday := .none } "1234567890" (by decide)

/- Claim C5. -/

/-- C5: add_phone raises nothing (failure is reported in the returned
string): either the phone is valid, it is appended at the end of the
phones sequence and a success message is returned, or it is invalid, the
record is left completely unchanged and an error message string is
returned. -/
theorem add_phone_reports_by_return (r : Record) (p : String) :
    ((Record.add_phone r p).1.phones = r.phones ++ [p] ∧ Phone.validate_phone p = true ∧
      (Record.add_phone r p).2 = "Phone number " ++ p ++ " added for " ++ r.name)
    ∨ ((Record.add_phone r p).1 = r ∧ Phone.validate_phone p = false ∧
      (Record.add_phone r p).2 = "Error: Invalid phone number") := by
  by_cases h : Phone.validate_phone p = true
  · left
    simp [Record.add_phone, h]
  · right
    have h' : Phone.validate_phone p = false := by simpa using h
    simp [Record.add_phone, h']

/- Claim C9. -/

theorem reMatchDollar_true_iff (body : List Char → Bool) (s : String) :
    reMatchDollar body s = true ↔
      (body s.data = true ∨ ∃ t : String, body t.data = true ∧ s = t.push '\n') := by
  unfold reMatchDollar
  rw [Bool.or_eq_true, Bool.and_eq_true, beq_iff_eq]
  constructor
  · rintro (hb | ⟨hlast, hdrop⟩)
    · exact Or.inl hb
    · refine Or.inr ⟨String.mk s.data.dropLast, hdrop, ?_⟩
      have hne : s.data ≠ [] := by
        intro hnil
        rw [hnil] at hlast
        exact absurd hlast (by simp)
      have hsplit : s.data.dropLast ++ [s.data.getLast hne] = s.data :=
        List.dropLast_append_getLast hne
      have hlast' : s.data.getLast hne = '\n' := by
        have := List.getLast?_eq_getLast s.data hne
        rw [this] at hlast
        injection hlast
      show s = String.mk (s.data.dropLast ++ ['\n'])
      rw [← hlast', hsplit]
  · rintro (hb | ⟨t, hbt, rfl⟩)
    · exact Or.inl hb
    · right
      constructor
      · show (t.data ++ ['\n']).getLast? = some '\n'
        rw [List.getLast?_concat]
      · show body (t.data ++ ['\n']).dropLast = true
        rw [List.dropLast_concat]
        exact hbt

theorem validate_phone_eq_or (s : String) :
    Phone.validate_phone s =
      (reMatchDollar bodyPlusGroups s || reMatchDollar bodyPlusDigits s ||
        (reMatchDollar bodyShortGroups s || reMatchDollar bodyTenDigits s)) := by
  unfold Phone.validate_phone
  by_cases h1 : (reMatchDollar bodyPlusGroups s || reMatchDollar bodyPlusDigits s) = true
  · simp [h1]
  · have h1' : (reMatchDollar bodyPlusGroups s || reMatchDollar bodyPlusDigits s) = false :=
      by simpa using h1
    rw [h1', if_neg (by simp)]
    cases h2 : (reMatchDollar bodyShortGroups s || reMatchDollar bodyTenDigits s) <;>
      simp [h2]

theorem validate_phone_true_iff (s : String) :
    Phone.validate_phone s = true ↔
      (reMatchDollar bodyPlusGroups s = true ∨ reMatchDollar bodyPlusDigits s = true ∨
        reMatchDollar bodyShortGroups s = true ∨ reMatchDollar bodyTenDigits s = true) := by
  rw [validate_phone_eq_or]
  simp [Bool.or_eq_true, or_assoc]

theorem phoneShape_true_iff (s : String) :
    phoneShape s = true ↔
      (bodyPlusGroups s.data = true ∨ bodyPlusDigits s.data = true ∨
        bodyShortGroups s.data = true ∨ bodyTenDigits s.data = true) := by
  simp [phoneShape, Bool.or_eq_true, or_assoc]

/-- C9 (amended): validate_phone accepts exactly the strings of the four
accepted shapes plus, additionally, each such string with one newline
appended ($ also matches just before a string-final newline); every
other string — in particular any other string differing by one character
from a valid shape — is rejected. -/
theorem validate_phone_characterization (s : String) :
    Phone.validate_phone s = true ↔
      (phoneShape s = true ∨ ∃ t, phoneShape t = true ∧ s = t.push '\n') := by
  rw [validate_phone_true_iff]
  simp only [reMatchDollar_true_iff]
  constructor
  · rintro ((h | ⟨t, ht, rfl⟩) | (h | ⟨t, ht, rfl⟩) | (h | ⟨t, ht, rfl⟩) | (h | ⟨t, ht, rfl⟩))
    · exact Or.inl ((phoneShape_true_iff s).mpr (Or.inl h))
    · exact Or.inr ⟨t, (phoneShape_true_iff t).mpr (Or.inl ht), rfl⟩
    · exact Or.inl ((phoneShape_true_iff s).mpr (Or.inr (Or.inl h)))
    · exact Or.inr ⟨t, (phoneShape_true_iff t).mpr (Or.inr (Or.inl ht)), rfl⟩
    · exact Or.inl ((phoneShape_true_iff s).mpr (Or.inr (Or.inr (Or.inl h))))
    · exact Or.inr ⟨t, (phoneShape_true_iff t).mpr (Or.inr (Or.inr (Or.inl ht))), rfl⟩
    · exact Or.inl ((phoneShape_true_iff s).mpr (Or.inr (Or.inr (Or.inr h))))
    · exact Or.inr ⟨t, (phoneShape_true_iff t).mpr (Or.inr (Or.inr (Or.inr ht))), rfl⟩
  · rintro (h | ⟨t, ht, rfl⟩)
    · rcases (phoneShape_true_iff s).mp h with h | h | h | h
      · exact Or.inl (Or.inl h)
      · exact Or.inr (Or.inl (Or.inl h))
      · exact Or.inr (Or.inr (Or.inl (Or.inl h)))
      · exact Or.inr (Or.inr (Or.inr (Or.inl h)))
    · rcases (phoneShape_true_iff t).mp ht with h | h | h | h
      · exact Or.inl (Or.inr ⟨t, h, rfl⟩)
      · exact Or.inr (Or.inl (Or.inr ⟨t, h, rfl⟩))
      · exact Or.inr (Or.inr (Or.inl (Or.inr ⟨t, h, rfl⟩)))
      · exact Or.inr (Or.inr (Or.inr (Or.inr ⟨t, h, rfl⟩)))

/-- C9 counterexample: "1234567890" has one of the four accepted shapes;
appending a single newline character gives a string that has none of the
shapes, yet validate_phone still returns true on it, refuting the claim
that any one-character deviation is rejected. -/
theorem validate_phone_trailing_newline_counterexample :
    Phone.validate_phone "1234567890\n" = true ∧
      phoneShape "1234567890" = true ∧
      "1234567890\n" = "1234567890".push '\n' ∧
      phoneShape "1234567890\n" = false :=
  ⟨by decide, by decide, by decide, by decide⟩

/- Claim C2. -/

theorem saveStep_clean (r : Record) (h : ∀ s, r.birthday ≠ .strB s) :
    AddressBook.saveStep r = .ok (docOf r, stringifyBday r) := by
  cases hb : r.birthday with
  | none => simp [AddressBook.saveStep, docOf, stringifyBday, hb]
  | obj d => simp [AddressBook.saveStep, docOf, stringifyBday, hb]
  | strB s => exact absurd hb (h s)

theorem save_to_file_clean (book : List Record)
    (h : ∀ r ∈ book, ∀ s, r.birthday ≠ .strB s) :
    AddressBook.save_to_file book = .ok (book.map docOf, book.map stringifyBday) := by
  induction book with
  | nil => rfl
  | cons r rs ih =>
    have hstep := saveStep_clean r (h r (List.mem_cons_self _ _))
    have htail := ih (fun x hx => h x (List.mem_cons_of_mem _ hx))
    simp [AddressBook.save_to_file, hstep, htail]

theorem saveStep_error_attr (r : Record) (e : PyError)
    (h : AddressBook.saveStep r = .error e) : e = .attributeError := by
  cases hb : r.birthday with
  | none => simp only [AddressBook.saveStep, hb] at h; exact absurd h (by simp)
  | obj d => simp only [AddressBook.saveStep, hb] at h; exact absurd h (by simp)
  | strB s =>
    simp only [AddressBook.saveStep, hb] at h
    by_cases hs : s.data.isEmpty = true
    · rw [if_pos hs] at h
      exact absurd h (by simp)
    · rw [if_neg hs] at h
      injection h with h'
      exact h'.symm

theorem save_to_file_strB (book : List Record)
    (h : ∃ r ∈ book, ∃ s, r.birthday = .strB s ∧ s.data.isEmpty = false) :
    AddressBook.save_to_file book = .error .attributeError := by
  induction book with
  | nil => simp at h
  | cons r rs ih =>
    obtain ⟨x, hx, s, hs, hne⟩ := h
    rcases List.mem_cons.mp hx with rfl | hx
    · simp [AddressBook.save_to_file, AddressBook.saveStep, hs, hne]
    · rcases hstep : AddressBook.saveStep r with e | p
      · simp [AddressBook.save_to_file, hstep, saveStep_error_attr r e hstep]
      · obtain ⟨rd, r2⟩ := p
        have htail := ih ⟨x, hx, s, hs, hne⟩
        simp [AddressBook.save_to_file, hstep, htail]

/-- C2: save_to_file serializes record.__dict__ itself, not a copy: on a
book whose birthday slots are all None or Birthday objects, with at
least one object, the call succeeds but replaces every Birthday-object
slot in memory by its 'YYYY-MM-DD' rendering, and a second consecutive
save_to_file on the resulting book raises AttributeError at the birthday
formatting step. -/
theorem save_to_file_mutates_birthday (book : List Record)
    (hclean : ∀ r ∈ book, ∀ s, r.birthday ≠ .strB s)
    (hobj : ∃ r ∈ book, ∃ d, r.birthday = .obj d) :
    AddressBook.save_to_file book = .ok (book.map docOf, book.map stringifyBday) ∧
    (∀ r ∈ book, ∀ d, r.birthday = .obj d →
      stringifyBday r = { r with birthday := .strB (strftimeYMD d) }) ∧
    AddressBook.save_to_file (book.map stringifyBday) = .error .attributeError := by
  refine ⟨save_to_file_clean book hclean, ?_, ?_⟩
  · intro r _ d hd
    simp [stringifyBday, hd]
  · apply save_to_file_strB
    obtain ⟨r, hr, d, hd⟩ := hobj
    refine ⟨stringifyBday r, List.mem_map_of_mem _ hr, strftimeYMD d, ?_,
      strftimeYMD_data_ne_nil d⟩
    simp [stringifyBday, hd]

/-- Witness for C2: the concrete one-record book, saved twice. -/
theorem save_to_file_mutates_birthday_witness :
    AddressBook.save_to_file
        (List.map stringifyBday
          [{ name := "Ann", address := "Main St", phones := ["380-1234567"],
             emails := ["ann@x.com"], birthday := .obj ⟨2000, 5, 1⟩ }]) =
      .error .attributeError :=
  (save_to_file_mutates_birthday
    [{ name := "Ann", address := "Main St", phones := ["380-1234567"],
       emails := ["ann@x.com"], birthday := .obj ⟨2000, 5, 1⟩ }]
    (by
      intro r hr s
      rcases List.mem_singleton.mp hr with rfl
      simp)
    ⟨_, List.mem_singleton_self _, ⟨2000, 5, 1⟩, rfl⟩).2.2

/- Claim C6. -/

theorem mkPhones_error (ps : List String)
    (h : ∃ p ∈ ps, Phone.validate_phone p = false) :
    AddressBook.mkPhones ps = .error .valueError := by
  induction ps with
  | nil => simp at h
  | cons p ps ih =>
    obtain ⟨x, hx, hxv⟩ := h
    by_cases hp : Phone.validate_phone p = true
    · have : x ∈ ps := by
        rcases List.mem_cons.mp hx with rfl | hm
        · rw [hp] at hxv; exact absurd hxv (by simp)
        · exact hm
      rw [AddressBook.mkPhones, if_pos hp, ih ⟨x, this, hxv⟩]
    · rw [AddressBook.mkPhones, if_neg hp]

theorem mkEmails_error (es : List String)
    (h : ∃ em ∈ es, Email.validate_email em = false) :
    AddressBook.mkEmails es = .error .valueError := by
  induction es with
  | nil => simp at h
  | cons p ps ih =>
    obtain ⟨x, hx, hxv⟩ := h
    by_cases hp : Email.validate_email p = true
    · have : x ∈ ps := by
        rcases List.mem_cons.mp hx with rfl | hm
        · rw [hp] at hxv; exact absurd hxv (by simp)
        · exact hm
      rw [AddressBook.mkEmails, if_pos hp, ih ⟨x, this, hxv⟩]
    · rw [AddressBook.mkEmails, if_neg hp]

theorem buildOne_error (today : Date) (rd : RecordData)
    (hbad : (∃ p ∈ rd.phones, Phone.validate_phone p = false) ∨
      (∃ em ∈ rd.emails, Email.validate_email em = false) ∨
      (∃ s, rd.birthday = some s ∧ s.data.isEmpty = false ∧
        ∀ d, strptimeYMD s = .ok d → Birthday.validate_birthday today d = false)) :
    ∃ e, AddressBook.buildOne today rd = .error e := by
  cases hp : AddressBook.mkPhones rd.phones with
  | error e => exact ⟨e, by rw [AddressBook.buildOne, hp]⟩
  | ok phones =>
    cases he : AddressBook.mkEmails rd.emails with
    | error e => exact ⟨e, by rw [AddressBook.buildOne, hp, he]⟩
    | ok emails =>
      rcases hbad with hb | hb | ⟨s, hbs, hne, hval⟩
      · rw [mkPhones_error rd.phones hb] at hp
        exact absurd hp (by simp)
      · rw [mkEmails_error rd.emails hb] at he
        exact absurd he (by simp)
      · cases hparse : strptimeYMD s with
        | error e =>
          exact ⟨e, by rw [AddressBook.buildOne, hp, he, hbs]; simp [hne, hparse]⟩
        | ok d =>
          refine ⟨.valueError, ?_⟩
          rw [AddressBook.buildOne, hp, he, hbs]
          simp [hne, hparse, hval d hparse]

theorem loadLoop_error (today : Date) :
    ∀ (rds : List RecordData) (book : List Record),
      (∃ rd ∈ rds, ∃ e, AddressBook.buildOne today rd = .error e) →
      ∃ e, AddressBook.loadLoop today rds book = .error e := by
  intro rds
  induction rds with
  | nil => intro book h; simp at h
  | cons rd rds ih =>
    intro book h
    obtain ⟨x, hx, e, he⟩ := h
    cases hb : AddressBook.buildOne today rd with
    | error e2 => exact ⟨e2, by rw [AddressBook.loadLoop, hb]⟩
    | ok r =>
      rcases List.mem_cons.mp hx with rfl | hx
      · rw [hb] at he
        exact absurd he (by simp)
      · obtain ⟨e2, h2⟩ := ih (AddressBook.add_record book r) ⟨x, hx, e, he⟩
        exact ⟨e2, by simp only [AddressBook.loadLoop, hb, h2]⟩

/-- C6: load_from_file returns a new empty AddressBook when the file is
missing (not an error); content that json.load rejects raises; and a
parsed document containing a record with a field value the validating
constructors reject (an invalid phone, an invalid email, or a truthy —
that is, non-empty — birthday string that fails to parse or lies in the
future; a null or empty birthday is falsy and reaches no constructor)
raises an error, with no partial book returned. -/
theorem load_from_file_error_handling (today : Date) :
    AddressBook.load_from_file today .absent = .ok [] ∧
    AddressBook.load_from_file today .notJson = .error .jsonDecodeError ∧
    ∀ rds : List RecordData,
      (∃ rd ∈ rds,
        (∃ p ∈ rd.phones, Phone.validate_phone p = false) ∨
        (∃ em ∈ rd.emails, Email.validate_email em = false) ∨
        (∃ s, rd.birthday = some s ∧ s.data.isEmpty = false ∧
          ∀ d, strptimeYMD s = .ok d → Birthday.validate_birthday today d = false)) →
      ∃ e, AddressBook.load_from_file today (.doc rds) = .error e := by
  refine ⟨rfl, rfl, ?_⟩
  intro rds h
  obtain ⟨rd, hm, hbad⟩ := h
  exact loadLoop_error today rds [] ⟨rd, hm, buildOne_error today rd hbad⟩

/-- Witness for C6: a document with one invalid phone makes the load
raise, while the missing file yields the empty book. -/
theorem load_from_file_error_handling_witness :
    AddressBook.load_from_file ⟨2026, 10, 12⟩ .absent = .ok [] ∧
    ∃ e, AddressBook.load_from_file ⟨2026, 10, 12⟩
        (.doc [{ name := "X", address := "", phones := ["bad"], emails := [],
                 birthday := Option.none }]) = .error e :=
  ⟨(load_from_file_error_handling ⟨2026, 10, 12⟩).1,
    (load_from_file_error_handling ⟨2026, 10, 12⟩).2.2 _
      ⟨_, List.mem_singleton_self _, Or.inl ⟨"bad", List.mem_singleton_self _, by decide⟩⟩⟩

/- Claim C3. -/

theorem digitRun_some : ∀ (n : Nat) (cs rest : List Char), digitRun n cs = some rest →
    ∃ pre, cs = pre ++ rest ∧ ∀ c ∈ pre, c.isDigit = true := by
  intro n
  induction n with
  | zero =>
    intro cs rest h
    rw [digitRun] at h
    injection h with h'
    exact ⟨[], by simp [h'], by simp⟩
  | succ n ih =>
    intro cs rest h
    cases cs with
    | nil => exact absurd h (by rw [digitRun]; simp)
    | cons c cs =>
      rw [digitRun] at h
      by_cases hc : c.isDigit = true
      · rw [if_pos hc] at h
        obtain ⟨pre, hpre, hall⟩ := ih cs rest h
        refine ⟨c :: pre, by simp [hpre], ?_⟩
        intro x hx
        rcases List.mem_cons.mp hx with rfl | hx
        · exact hc
        · exact hall x hx
      · rw [if_neg hc] at h
        exact absurd h (by simp)

theorem bodyPlusGroups_chars {cs : List Char} (h : bodyPlusGroups cs = true) :
    ∀ c ∈ cs, c.isDigit = true ∨ c = '+' ∨ c = '-' := by
  unfold bodyPlusGroups at h
  split at h
  · rename_i r
    split at h
    · rename_i r2 heq2
      split at h
      · rename_i r3 heq3
        rw [beq_iff_eq] at h
        obtain ⟨p2, hp2, hall2⟩ := digitRun_some 2 r _ heq2
        obtain ⟨p3, hp3, hall3⟩ := digitRun_some 3 r2 _ heq3
        obtain ⟨p7, hp7, hall7⟩ := digitRun_some 7 r3 _ h
        intro c hc
        rw [hp2, hp3, hp7] at hc
        simp only [List.mem_cons, List.mem_append, List.append_nil] at hc
        rcases hc with rfl | hc | rfl | hc | rfl | hc
        · exact Or.inr (Or.inl rfl)
        · exact Or.inl (hall2 c hc)
        · exact Or.inr (Or.inr rfl)
        · exact Or.inl (hall3 c hc)
        · exact Or.inr (Or.inr rfl)
        · exact Or.inl (hall7 c hc)
      · exact absurd h (by simp)
    · exact absurd h (by simp)
  · exact absurd h (by simp)

theorem bodyPlusDigits_chars {cs : List Char} (h : bodyPlusDigits cs = true) :
    ∀ c ∈ cs, c.isDigit = true ∨ c = '+' ∨ c = '-' := by
  unfold bodyPlusDigits at h
  split at h
  · rename_i r
    rw [beq_iff_eq] at h
    obtain ⟨p, hp, hall⟩ := digitRun_some 12 r _ h
    intro c hc
    rw [hp] at hc
    simp only [List.mem_cons, List.mem_append, List.append_nil] at hc
    rcases hc with rfl | hc
    · exact Or.inr (Or.inl rfl)
    · exact Or.inl (hall c hc)
  · exact absurd h (by simp)

theorem bodyShortGroups_chars {cs : List Char} (h : bodyShortGroups cs = true) :
    ∀ c ∈ cs, c.isDigit = true ∨ c = '+' ∨ c = '-' := by
  unfold bodyShortGroups at h
  split at h
  · rename_i r2 heq2
    rw [beq_iff_eq] at h
    obtain ⟨p3, hp3, hall3⟩ := digitRun_some 3 cs _ heq2
    obtain ⟨p7, hp7, hall7⟩ := digitRun_some 7 r2 _ h
    intro c hc
    rw [hp3, hp7] at hc
    simp only [List.mem_cons, List.mem_append, List.append_nil] at hc
    rcases hc with hc | rfl | hc
    · exact Or.inl (hall3 c hc)
    · exact Or.inr (Or.inr rfl)
    · exact Or.inl (hall7 c hc)
  · exact absurd h (by simp)

theorem bodyTenDigits_chars {cs : List Char} (h : bodyTenDigits cs = true) :
    ∀ c ∈ cs, c.isDigit = true ∨ c = '+' ∨ c = '-' := by
  unfold bodyTenDigits at h
  rw [beq_iff_eq] at h
  obtain ⟨p, hp, hall⟩ := digitRun_some 10 cs _ h
  intro c hc
  rw [hp] at hc
  simp only [List.append_nil] at hc
  exact Or.inl (hall c hc)

theorem phoneShape_chars {s : String} (h : phoneShape s = true) :
    ∀ c ∈ s.data, c.isDigit = true ∨ c = '+' ∨ c = '-' := by
  rcases (phoneShape_true_iff s).mp h with h | h | h | h
  · exact bodyPlusGroups_chars h
  · exact bodyPlusDigits_chars h
  · exact bodyShortGroups_chars h
  · exact bodyTenDigits_chars h

theorem isSep_false_of_phoneChar {c : Char} (h : c.isDigit = true ∨ c = '+' ∨ c = '-') :
    isSep c = false := by
  rcases h with h | rfl | rfl
  · have e1 : ¬ (c = ',') := fun e => absurd h (by rw [e]; decide)
    have e2 : ¬ (c = ' ') := fun e => absurd h (by rw [e]; decide)
    have e3 : ¬ (c = '\t') := fun e => absurd h (by rw [e]; decide)
    have e4 : ¬ (c = '\n') := fun e => absurd h (by rw [e]; decide)
    have e5 : ¬ (c = '\r') := fun e => absurd h (by rw [e]; decide)
    have e6 : ¬ (c = '\x0b') := fun e => absurd h (by rw [e]; decide)
    have e7 : ¬ (c = '\x0c') := fun e => absurd h (by rw [e]; decide)
    simp [isSep, isSpaceChar, e1, e2, e3, e4, e5, e6, e7]
  · decide
  · decide

theorem splitSepsAux_no_sep : ∀ (cs acc : List Char), (∀ c ∈ cs, isSep c = false) →
    splitSepsAux cs acc = [acc.reverse ++ cs] := by
  intro cs
  induction cs with
  | nil =>
    intro acc h
    simp [splitSepsAux]
  | cons c rest ih =>
    intro acc h
    have hc : isSep c = false := h c (List.mem_cons_self _ _)
    rw [splitSepsAux, if_neg (by simp [hc])]
    rw [ih (c :: acc) (fun x hx => h x (List.mem_cons_of_mem _ hx))]
    simp

theorem reSplit_eq_self {s : String} (h : ∀ c ∈ s.data, isSep c = false) :
    reSplit s = [s] := by
  unfold reSplit
  rw [splitSepsAux_no_sep s.data [] h]
  rfl

theorem validate_phone_of_phoneShape {s : String} (h : phoneShape s = true) :
    Phone.validate_phone s = true := by
  rw [validate_phone_eq_or]
  rcases (phoneShape_true_iff s).mp h with h | h | h | h <;>
    simp [reMatchDollar, h]

theorem process_phones_id (ps : List String) (h : ∀ p ∈ ps, phoneShape p = true) :
    Record.process_phones ps = .ok ps := by
  induction ps with
  | nil => rfl
  | cons p ps ih =>
    have hp := h p (List.mem_cons_self _ _)
    have hsplit : reSplit p = [p] :=
      reSplit_eq_self (fun c hc => isSep_false_of_phoneChar (phoneShape_chars hp c hc))
    have hval := validate_phone_of_phoneShape hp
    have htail := ih (fun x hx => h x (List.mem_cons_of_mem _ hx))
    rw [Record.process_phones, hsplit]
    simp [Record.processTokens, hval, htail]

theorem mkPhones_id (ps : List String) (h : ∀ p ∈ ps, Phone.validate_phone p = true) :
    AddressBook.mkPhones ps = .ok ps := by
  induction ps with
  | nil => rfl
  | cons p ps ih =>
    rw [AddressBook.mkPhones, if_pos (h p (List.mem_cons_self _ _)),
      ih (fun x hx => h x (List.mem_cons_of_mem _ hx))]

theorem mkEmails_id (es : List String) (h : ∀ em ∈ es, Email.validate_email em = true) :
    AddressBook.mkEmails es = .ok es := by
  induction es with
  | nil => rfl
  | cons p ps ih =>
    rw [AddressBook.mkEmails, if_pos (h p (List.mem_cons_self _ _)),
      ih (fun x hx => h x (List.mem_cons_of_mem _ hx))]

theorem buildOne_docOf (today : Date) (r : Record)
    (hph : ∀ p ∈ r.phones, phoneShape p = true)
    (hem : ∀ em ∈ r.emails, Email.validate_email em = true)
    (hbd : r.birthday = .none ∨
      ∃ d, r.birthday = .obj d ∧ validDate d = true ∧ dateLe d today) :
    AddressBook.buildOne today (docOf r) = .ok r := by
  obtain ⟨nm, ad, ph, em, bd⟩ := r
  simp only at hph hem hbd
  have hmk : AddressBook.mkPhones ph = .ok ph :=
    mkPhones_id ph (fun p hp => validate_phone_of_phoneShape (hph p hp))
  have hme : AddressBook.mkEmails em = .ok em := mkEmails_id em hem
  have hproc : Record.process_phones ph = .ok ph := process_phones_id ph hph
  rcases hbd with rfl | ⟨d, rfl, hv, hle⟩
  · simp [AddressBook.buildOne, docOf, hmk, hme, hproc]
  · simp [AddressBook.buildOne, docOf, hmk, hme, hproc, strftimeYMD_data_ne_nil d,
      strptime_strftime hv, Birthday.validate_birthday, decide_eq_true hle]

theorem add_record_append (book : List Record) (r : Record)
    (h : r.name ∉ book.map Record.name) :
    AddressBook.add_record book r = book ++ [r] := by
  have hany : book.any (fun x => x.name == r.name) = false := by
    rw [List.any_eq_false]
    intro x hx hbeq
    apply h
    rw [beq_iff_eq] at hbeq
    rw [← hbeq]
    exact List.mem_map_of_mem _ hx
  rw [AddressBook.add_record, hany]
  rfl

theorem loadLoop_docOf (today : Date) :
    ∀ (rs acc : List Record),
      (∀ r ∈ rs, (∀ p ∈ r.phones, phoneShape p = true) ∧
        (∀ em ∈ r.emails, Email.validate_email em = true) ∧
        (r.birthday = .none ∨
          ∃ d, r.birthday = .obj d ∧ validDate d = true ∧ dateLe d today)) →
      ((acc ++ rs).map Record.name).Nodup →
      AddressBook.loadLoop today (rs.map docOf) acc = .ok (acc ++ rs) := by
  intro rs
  induction rs with
  | nil =>
    intro acc _ _
    simp [AddressBook.loadLoop]
  | cons r rs ih =>
    intro acc hwf hnd
    obtain ⟨hph, hem, hbd⟩ := hwf r (List.mem_cons_self _ _)
    have hbuild := buildOne_docOf today r hph hem hbd
    have hnotin : r.name ∉ acc.map Record.name := by
      intro hmem
      have : ¬ ((acc.map Record.name).Disjoint ((r :: rs).map Record.name)) := by
        intro hdis
        exact hdis hmem (by simp)
      rw [List.map_append] at hnd
      exact this (List.disjoint_of_nodup_append hnd)
    have hadd : AddressBook.add_record acc r = acc ++ [r] := add_record_append acc r hnotin
    rw [List.map_cons, AddressBook.loadLoop]
    simp only [hbuild, hadd]
    have happ : (acc ++ [r]) ++ rs = acc ++ r :: rs := by simp
    rw [ih (acc ++ [r]) (fun x hx => hwf x (List.mem_cons_of_mem _ hx)) (by rw [happ]; exact hnd),
      happ]

/-- C3: for every AddressBook whose records were built through the
validating constructors (every stored phone has one of the four accepted
shapes, every stored email passes validate_email, every birthday slot is
None or a Birthday object holding a valid date not in the future) and
whose record names are distinct (the AddressBook key invariant),
save_to_file followed by load_from_file reproduces the records exactly:
same names, addresses, phone and email sequences in order, and the same
birthday dates. -/
theorem save_load_roundtrip (today : Date) (book : List Record)
    (hph : ∀ r ∈ book, ∀ p ∈ r.phones, phoneShape p = true)
    (hem : ∀ r ∈ book, ∀ em ∈ r.emails, Email.validate_email em = true)
    (hbd : ∀ r ∈ book, r.birthday = .none ∨
      ∃ d, r.birthday = .obj d ∧ validDate d = true ∧ dateLe d today)
    (hnames : (book.map Record.name).Nodup) :
    ∃ docs book2, AddressBook.save_to_file book = .ok (docs, book2) ∧
      AddressBook.load_from_file today (.doc docs) = .ok book := by
  have hclean : ∀ r ∈ book, ∀ s, r.birthday ≠ .strB s := by
    intro r hr s
    rcases hbd r hr with hb | ⟨d, hb, _, _⟩ <;> rw [hb] <;> simp
  refine ⟨book.map docOf, book.map stringifyBday, save_to_file_clean book hclean, ?_⟩
  show AddressBook.loadLoop today (book.map docOf) [] = .ok book
  have := loadLoop_docOf today book []
    (fun r hr => ⟨hph r hr, hem r hr, hbd r hr⟩) (by simpa using hnames)
  simpa using this

/-- Witness for C3 at a concrete two-record book. -/
theorem save_load_roundtrip_witness :
    ∃ docs book2,
      AddressBook.save_to_file
          [{ name := "Ann", address := "Main St", phones := ["380-1234567"],
             emails := ["ann@x.com"], birthday := .obj ⟨2000, 5, 1⟩ },
           { name := "Bob", address := "Oak Ave", phones := ["1234567890"],
             emails := [], birthday := .none }] = .ok (docs, book2) ∧
      AddressBook.load_from_file ⟨2026, 10, 12⟩ (.doc docs) =
        .ok [{ name := "Ann", address := "Main St", phones := ["380-1234567"],
               emails := ["ann@x.com"], birthday := .obj ⟨2000, 5, 1⟩ },
             { name := "Bob", address := "Oak Ave", phones := ["1234567890"],
               emails := [], birthday := .none }] := by
  apply save_load_roundtrip ⟨2026, 10, 12⟩
  · intro r hr p hp
    rcases List.mem_cons.mp hr with rfl | hr
    · rcases List.mem_singleton.mp hp with rfl
      decide
    · rcases List.mem_singleton.mp hr with rfl
      rcases List.mem_singleton.mp hp with rfl
      decide
  · intro r hr em he
    rcases List.mem_cons.mp hr with rfl | hr
    · rcases List.mem_singleton.mp he with rfl
      decide
    · rcases List.mem_singleton.mp hr with rfl
      simp at he
  · intro r hr
    rcases List.mem_cons.mp hr with rfl | hr
    · exact Or.inr ⟨⟨2000, 5, 1⟩, rfl, by decide, by decide⟩
    · rcases List.mem_singleton.mp hr with rfl
      exact Or.inl rfl
  · decide

/- Claim C4. -/

theorem contains_eq_true_of_mem {l : List String} {x : String} (h : x ∈ l) :
    l.contains x = true := by
  rw [List.contains_eq_any_beq, List.any_eq_true]
  exact ⟨x, h, by simp⟩

theorem contains_eq_false_of_not_mem {l : List String} {x : String} (h : x ∉ l) :
    l.contains x = false := by
  rw [List.contains_eq_any_beq, List.any_eq_false]
  intro y hy hbeq
  rw [beq_iff_eq] at hbeq
  exact h (hbeq ▸ hy)

theorem searchName_seen (q : String) (r : Record) (a : List Record × List String)
    (h : r.name ∈ a.2) : AddressBook.searchName q r a = a := by
  unfold AddressBook.searchName
  rw [if_neg]
  intro hcon
  rw [contains_eq_true_of_mem h] at hcon
  simp at hcon

theorem searchPhones_seen (q : String) (r : Record) :
    ∀ (ps : List String) (a : List Record × List String), r.name ∈ a.2 →
      ps.foldl
        (fun a p =>
          if pyIn q (pyLower p) && !a.2.contains r.name then (a.1 ++ [r], r.name :: a.2)
          else a) a = a := by
  intro ps
  induction ps with
  | nil => intro a _; rfl
  | cons p ps ih =>
    intro a ha
    rw [List.foldl_cons, if_neg]
    · exact ih a ha
    · intro hcon
      rw [contains_eq_true_of_mem ha] at hcon
      simp at hcon

theorem searchPhones_seen' (q : String) (r : Record) (a : List Record × List String)
    (h : r.name ∈ a.2) : AddressBook.searchPhones q r a = a :=
  searchPhones_seen q r r.phones a h

theorem searchPhones_unseen (q : String) (r : Record) :
    ∀ (ps : List String) (a : List Record × List String), r.name ∉ a.2 →
      ps.foldl
        (fun a p =>
          if pyIn q (pyLower p) && !a.2.contains r.name then (a.1 ++ [r], r.name :: a.2)
          else a) a =
        (if ps.any (fun p => pyIn q (pyLower p)) then (a.1 ++ [r], r.name :: a.2) else a) := by
  intro ps
  induction ps with
  | nil => intro a _; rfl
  | cons p ps ih =>
    intro a ha
    have hc : a.2.contains r.name = false := contains_eq_false_of_not_mem ha
    by_cases hp : pyIn q (pyLower p) = true
    · rw [List.foldl_cons, if_pos (by rw [hp, hc]; rfl)]
      rw [searchPhones_seen q r ps _ (List.mem_cons_self _ _)]
      rw [if_pos (by rw [List.any_cons, hp]; rfl)]
    · have hp' : pyIn q (pyLower p) = false := by simpa using hp
      rw [List.foldl_cons, if_neg (by rw [hp', hc]; simp)]
      rw [ih a ha]
      by_cases hany : ps.any (fun p => pyIn q (pyLower p)) = true
      · rw [if_pos hany, if_pos (by rw [List.any_cons, hany]; simp)]
      · have hany' : ps.any (fun p => pyIn q (pyLower p)) = false := by simpa using hany
        rw [if_neg (by rw [hany']; simp), if_neg (by rw [List.any_cons, hany', hp']; simp)]

theorem searchPhones_unseen' (q : String) (r : Record) (a : List Record × List String)
    (h : r.name ∉ a.2) :
    AddressBook.searchPhones q r a =
      (if r.phones.any (fun p => pyIn q (pyLower p)) then (a.1 ++ [r], r.name :: a.2)
       else a) :=
  searchPhones_unseen q r r.phones a h

theorem searchOne_unseen (q : String) (acc : List Record × List String) (r : Record)
    (h : r.name ∉ acc.2) :
    AddressBook.searchOne q acc r =
      (acc.1 ++
        (if pyIn q (pyLower r.name) || r.phones.any (fun p => pyIn q (pyLower p))
         then [r] else []) ++
        (if r.emails.any (fun e => pyIn q (pyLower e)) then [r] else []),
       if pyIn q (pyLower r.name) || r.phones.any (fun p => pyIn q (pyLower p))
       then r.name :: acc.2 else acc.2) := by
  have hc : acc.2.contains r.name = false := contains_eq_false_of_not_mem h
  unfold AddressBook.searchOne
  by_cases hn : pyIn q (pyLower r.name) = true
  · have h1 : AddressBook.searchName q r acc = (acc.1 ++ [r], r.name :: acc.2) := by
      unfold AddressBook.searchName
      rw [if_pos (by rw [hn, hc]; rfl)]
    rw [h1, searchPhones_seen' q r _ (List.mem_cons_self _ _)]
    unfold AddressBook.searchEmails
    by_cases he : (r.emails.any fun e => pyIn q (pyLower e)) = true
    · rw [if_pos he]
      simp [hn, he]
    · have he' : (r.emails.any fun e => pyIn q (pyLower e)) = false := by simpa using he
      rw [if_neg (by rw [he']; simp)]
      simp [hn, he']
  · have hn' : pyIn q (pyLower r.name) = false := by simpa using hn
    have h1 : AddressBook.searchName q r acc = acc := by
      unfold AddressBook.searchName
      rw [if_neg (by rw [hn', hc]; simp)]
    rw [h1, searchPhones_unseen' q r acc h]
    by_cases hp : (r.phones.any fun p => pyIn q (pyLower p)) = true
    · rw [if_pos hp]
      unfold AddressBook.searchEmails
      by_cases he : (r.emails.any fun e => pyIn q (pyLower e)) = true
      · rw [if_pos he]
        simp [hn', hp, he]
      · have he' : (r.emails.any fun e => pyIn q (pyLower e)) = false := by simpa using he
        rw [if_neg (by rw [he']; simp)]
        simp [hn', hp, he']
    · have hp' : (r.phones.any fun p => pyIn q (pyLower p)) = false := by simpa using hp
      rw [if_neg (by rw [hp']; simp)]
      unfold AddressBook.searchEmails
      by_cases he : (r.emails.any fun e => pyIn q (pyLower e)) = true
      · rw [if_pos he]
        simp [hn', hp', he]
      · have he' : (r.emails.any fun e => pyIn q (pyLower e)) = false := by simpa using he
        rw [if_neg (by rw [he']; simp)]
        simp [hn', hp', he']

theorem searchOne_other (q : String) (acc : List Record × List String) (x : Record) :
    ∃ k, (AddressBook.searchOne q acc x).1 = acc.1 ++ List.replicate k x ∧
      ((AddressBook.searchOne q acc x).2 = acc.2 ∨
        (AddressBook.searchOne q acc x).2 = x.name :: acc.2) := by
  by_cases hx : x.name ∈ acc.2
  · unfold AddressBook.searchOne
    rw [searchName_seen q x acc hx, searchPhones_seen' q x acc hx]
    unfold AddressBook.searchEmails
    by_cases he : (x.emails.any fun e => pyIn q (pyLower e)) = true
    · rw [if_pos he]
      exact ⟨1, by simp [List.replicate], Or.inl rfl⟩
    · rw [if_neg (by rw [show (x.emails.any fun e => pyIn q (pyLower e)) = false by
        simpa using he]; simp)]
      exact ⟨0, by simp, Or.inl rfl⟩
  · rw [searchOne_unseen q acc x hx]
    by_cases hn : (pyIn q (pyLower x.name) || x.phones.any fun p => pyIn q (pyLower p)) = true
    · by_cases he : (x.emails.any fun e => pyIn q (pyLower e)) = true
      · refine ⟨2, ?_, Or.inr (by simp [hn])⟩
        simp [hn, he]
      · have he' : (x.emails.any fun e => pyIn q (pyLower e)) = false := by simpa using he
        refine ⟨1, ?_, Or.inr (by simp [hn])⟩
        simp [hn, he', List.replicate]
    · have hn' : (pyIn q (pyLower x.name) || x.phones.any fun p => pyIn q (pyLower p)) = false :=
        by simpa using hn
      by_cases he : (x.emails.any fun e => pyIn q (pyLower e)) = true
      · refine ⟨1, ?_, Or.inl (by simp [hn'])⟩
        simp [hn', he, List.replicate]
      · have he' : (x.emails.any fun e => pyIn q (pyLower e)) = false := by simpa using he
        refine ⟨0, ?_, Or.inl (by simp [hn'])⟩
        simp [hn', he']

theorem searchFold_other (q : String) (r : Record) :
    ∀ (xs : List Record) (acc : List Record × List String),
      (∀ x ∈ xs, x ≠ r ∧ x.name ≠ r.name) →
      (xs.foldl (AddressBook.searchOne q) acc).1.count r = acc.1.count r ∧
        (r.name ∈ (xs.foldl (AddressBook.searchOne q) acc).2 ↔ r.name ∈ acc.2) := by
  intro xs
  induction xs with
  | nil => intro acc _; exact ⟨rfl, Iff.rfl⟩
  | cons x xs ih =>
    intro acc hx
    obtain ⟨hne, hname⟩ := hx x (List.mem_cons_self _ _)
    obtain ⟨k, h1, h2⟩ := searchOne_other q acc x
    rw [List.foldl_cons]
    obtain ⟨ihc, ihm⟩ := ih (AddressBook.searchOne q acc x)
      (fun y hy => hx y (List.mem_cons_of_mem _ hy))
    constructor
    · rw [ihc, h1, List.count_append]
      have hz : (List.replicate k x).count r = 0 := by
        rw [List.count_eq_zero]
        intro hmem
        exact hne (List.eq_of_mem_replicate hmem).symm
      omega
    · rcases h2 with h2 | h2
      · rw [ihm, h2]
      · rw [ihm, h2]
        constructor
        · intro hm
          rcases List.mem_cons.mp hm with he | hm
          · exact absurd he.symm hname
          · exact hm
        · exact List.mem_cons_of_mem _

/-- C4 (amended): under the AddressBook key invariant (pairwise distinct
record names), search_records returns a matching record once when only
its name or a phone matches, once when only an email matches, and twice
when a name-or-phone match combines with an email match: the name and
phone paths share a seen-set, but the email path appends regardless of
it, so a record can occur twice in the result, never more.  (The
original at-most-once claim fails, see the counterexample.) -/
theorem search_records_count (book : List Record) (query : String)
    (hnd : (book.map Record.name).Nodup) :
    ∀ r ∈ book,
      (AddressBook.search_records book query).count r =
        ((if pyIn (pyLower query) (pyLower r.name) ||
            r.phones.any (fun p => pyIn (pyLower query) (pyLower p)) then 1 else 0) +
         (if r.emails.any (fun e => pyIn (pyLower query) (pyLower e)) then 1 else 0)) := by
  intro r hr
  obtain ⟨A, B, rfl⟩ := List.append_of_mem hr
  have hnamesA : ∀ x ∈ A, x.name ≠ r.name := by
    rw [List.map_append, List.map_cons] at hnd
    have hd := List.disjoint_of_nodup_append hnd
    intro x hx he
    exact hd (List.mem_map_of_mem _ hx) (by rw [he]; exact List.mem_cons_self _ _)
  have hnamesB : ∀ x ∈ B, x.name ≠ r.name := by
    rw [List.map_append, List.map_cons] at hnd
    have hnd2 := (List.nodup_append.mp hnd).2.1
    rw [List.nodup_cons] at hnd2
    intro x hx he
    exact hnd2.1 (he ▸ List.mem_map_of_mem Record.name hx)
  unfold AddressBook.search_records
  rw [List.foldl_append, List.foldl_cons]
  obtain ⟨hA1, hA2⟩ := searchFold_other (pyLower query) r A ([], [])
    (fun x hx => ⟨fun he => hnamesA x hx (he ▸ rfl), hnamesA x hx⟩)
  have hnotin : r.name ∉ (A.foldl (AddressBook.searchOne (pyLower query)) ([], [])).2 := by
    rw [hA2]
    simp
  rw [searchOne_unseen (pyLower query) _ r hnotin]
  obtain ⟨hB1, _⟩ := searchFold_other (pyLower query) r B _
    (fun x hx => ⟨fun he => hnamesB x hx (he ▸ rfl), hnamesB x hx⟩)
  rw [hB1]
  simp only [List.count_append, hA1]
  by_cases hn : (pyIn (pyLower query) (pyLower r.name) ||
      r.phones.any fun p => pyIn (pyLower query) (pyLower p)) = true
  · by_cases he : (r.emails.any fun e => pyIn (pyLower query) (pyLower e)) = true
    · simp [hn, he]
    · have he' : (r.emails.any fun e => pyIn (pyLower query) (pyLower e)) = false := by
        simpa using he
      simp [hn, he']
  · have hn' : (pyIn (pyLower query) (pyLower r.name) ||
        r.phones.any fun p => pyIn (pyLower query) (pyLower p)) = false := by simpa using hn
    by_cases he : (r.emails.any fun e => pyIn (pyLower query) (pyLower e)) = true
    · simp [hn', he]
    · have he' : (r.emails.any fun e => pyIn (pyLower query) (pyLower e)) = false := by
        simpa using he
      simp [hn', he']

/-- Witness for C4: a record whose name and email both match the query
is counted exactly twice in the result. -/
theorem search_records_count_witness :
    (AddressBook.search_records
        [{ name := "ann", address := "a", phones := ["1234567890"],
           emails := ["ann@x.com"], birthday := .none }] "ann").count
      { name := "ann", address := "a", phones := ["1234567890"],
        emails := ["ann@x.com"], birthday := .none } = 2 := by
  have h := search_records_count
    [{ name := "ann", address := "a", phones := ["1234567890"],
       emails := ["ann@x.com"], birthday := .none }] "ann" (by decide)
    { name := "ann", address := "a", phones := ["1234567890"],
      emails := ["ann@x.com"], birthday := .none } (List.mem_singleton_self _)
  rw [h]
  decide

/-- C4 counterexample: the record matching the query both by name and by
an email is returned twice by search_records, refuting the at-most-once
claim. -/
theorem search_records_duplicate_counterexample :
    AddressBook.search_records
        [{ name := "ann", address := "a", phones := ["1234567890"],
           emails := ["ann@x.com"], birthday := .none }] "ann" =
      [{ name := "ann", address := "a", phones := ["1234567890"],
         emails := ["ann@x.com"], birthday := .none },
       { name := "ann", address := "a", phones := ["1234567890"],
         emails := ["ann@x.com"], birthday := .none }] := by
  decide
